import Mathlib

/-!
Shallow embedding of the Longstaff-Schwartz backward-induction engine
`lsmc` from `application/Longstaff_Schwartz/deprecated/LSMC.py`.

Matrices are lists of rows (row index = time step, column index = path),
mirroring the numpy layout.  Floating-point NaN is modelled by `Option`
(`none` is NaN) with NaN-absorbing arithmetic, matching IEEE semantics of
the numpy operations actually used.  The transcendental `np.exp` is passed
as an explicit function parameter `expf` to the generic engine and is
instantiated with `Real.exp` in the real-number wrappers `lsmcFull` and
`lsmc` below.
-/

set_option linter.unusedVariables false
set_option linter.unnecessarySimpa false
set_option linter.unusedSectionVars false

/-- NaN-aware scalar: `none` models a floating-point NaN. -/
abbrev NA (α : Type) : Type := Option α

variable {α : Type} [LinearOrderedField α] {β γ τ : Type}

/-- NaN-absorbing addition: `NaN + x = x + NaN = NaN`. -/
def naAdd (x y : NA α) : NA α :=
  match x, y with
  | some a, some b => some (a + b)
  | _, _ => none

/-- Multiplication of a possibly-NaN value by a finite scalar (`x * d`). -/
def naScale (d : α) (x : NA α) : NA α := x.map (fun v => v * d)

/-- NaN-absorbing sum of a list (numpy sum semantics). -/
def naSum (l : List (NA α)) : NA α := l.foldr naAdd (some 0)

/-- Mean of a vector, numpy semantics: the mean of an empty array is NaN. -/
def naMean (l : List (NA α)) : NA α :=
  if l.length = 0 then none else (naSum l).map (fun s => s / (l.length : α))

/-- Embedding of `np.diff`: successive differences of a vector. -/
def npDiff (t : List α) : List α := List.zipWith (fun a b => b - a) t t.tail

/-- Helper for `cumprod`: running products continuing from `acc`. -/
def cumprodFrom (acc : α) : List α → List α
  | [] => []
  | d :: ds => (acc * d) :: cumprodFrom (acc * d) ds

/-- Embedding of `np.cumprod` on a vector. -/
def cumprod : List α → List α
  | [] => []
  | d :: ds => d :: cumprodFrom d ds

/-- Conversion of a boolean to the integer numpy uses in `cumsum`. -/
def boolToNat (b : Bool) : Nat := if b then 1 else 0

/-- Helper for `cumsumCol`: running sums continuing from `acc`. -/
def cumsumColFrom (acc : Nat) : List Nat → List Nat
  | [] => []
  | x :: xs => (acc + x) :: cumsumColFrom (acc + x) xs

/-- Cumulative sum of a single column (vector of counts). -/
def cumsumCol : List Nat → List Nat
  | [] => []
  | x :: xs => x :: cumsumColFrom x xs

/-- Elementwise addition of two rows. -/
def addRows (a b : List Nat) : List Nat := List.zipWith (· + ·) a b

/-- Helper for `cumsumRows`: running row sums continuing from `acc`. -/
def cumsumRowsFrom (acc : List Nat) : List (List Nat) → List (List Nat)
  | [] => []
  | r :: rs => addRows acc r :: cumsumRowsFrom (addRows acc r) rs

/-- Embedding of `np.cumsum(m, axis=0)`: columnwise running sums of a
matrix stored as a list of rows. -/
def cumsumRows : List (List Nat) → List (List Nat)
  | [] => []
  | r :: rs => r :: cumsumRowsFrom r rs

/-- The single-stopping-time collapse, source line 59:
`np.cumsum(np.cumsum(stopping_rule, axis=0), axis=0) == 1`. -/
def collapseMat (s : List (List Bool)) : List (List Bool) :=
  (cumsumRows (cumsumRows (s.map (fun r => r.map boolToNat)))).map
    (fun r => r.map (fun c => c == 1))

/-- The same double-cumsum filter on a single column. -/
def collapseCol (b : List Bool) : List Bool :=
  (cumsumCol (cumsumCol (b.map boolToNat))).map (fun c => c == 1)

/-- Modelled from the spec: the explicit "find first true index per path,
discard later trues" scan that section 9 of the design document proposes
as the clear equivalent of the double-cumsum idiom (claim C3 compares the
two). -/
def firstTrueOnly : List Bool → List Bool
  | [] => []
  | b :: bs => if b then true :: bs.map (fun _ => false) else false :: firstTrueOnly bs

/-- Column `n` of a matrix of rows, reading out-of-range entries as `d`. -/
def colD (n : Nat) (m : List (List γ)) (d : γ) : List γ := m.map (fun r => r.getD n d)

/-- The in-the-money mask of a payoff row, source line 43: `payoff[j, :] > 0`. -/
def itmMask (pr : List α) : List Bool := pr.map (fun p => decide (0 < p))

/-- Boolean-mask selection, the numpy fancy-indexing `xs[mask]`. -/
def maskFilter : List γ → List Bool → List γ
  | [], _ => []
  | _ :: _, [] => []
  | x :: xs, m :: ms => if m then x :: maskFilter xs ms else maskFilter xs ms

/-- Masked strict comparison, source line 53:
`stopping_rule[j-1, itm] = exercise > EV_cont`.  Positions where the mask
is false keep the initialised `false`; positions where the mask is true
consume the next predicted continuation value and compare strictly. -/
def maskedGT : List α → List Bool → List α → List Bool
  | [], _, _ => []
  | _ :: _, [], _ => []
  | p :: ps, m :: ms, es =>
    if m then
      match es with
      | e :: es2 => decide (e < p) :: maskedGT ps ms es2
      | [] => false :: maskedGT ps ms []
    else false :: maskedGT ps ms es

/-- One interior-date update of the backward loop (source lines 42-56),
given the row of simulated prices `xr`, the payoff row `pr`, the one-step
discount factor `d` and the most recently finalised cashflow row
`cfNext`.  Produces the stopping-rule row and cashflow row written at
index `j - 1`. -/
def lsmcStep (fit : List α → List (NA α) → β) (pred : List α → β → List α)
    (xr pr : List α) (d : α) (cfNext : List (NA α)) : List Bool × List (NA α) :=
  let itm := itmMask pr
  let xs := maskFilter xr itm
  let ys := (maskFilter cfNext itm).map (naScale d)
  let model := fit xs ys
  let ev := pred xs model
  let ruleRow := maskedGT pr itm ev
  let cfRow := List.zipWith (fun b p => some (if b then p else 0)) ruleRow pr
  (ruleRow, cfRow)

/-- The backward loop `for j in range(M-1, 0, -1)` (source lines 42-56).
The three input lists hold, in increasing time order, the simulated-price
rows `X[1], ..., X[M-1]`, the payoff rows `payoff[1], ..., payoff[M-1]`
and the discount factors `discount_factor[1], ..., discount_factor[M-1]`;
`term` is the terminal row pair initialised at source lines 39-40.  The
result lists the row pairs for indices `0, ..., M-1`, each interior row
computed from the cashflow row one step closer to maturity. -/
def lsmcLoop (fit : List α → List (NA α) → β) (pred : List α → β → List α) :
    List (List α) → List (List α) → List α → List Bool × List (NA α) →
      List (List Bool × List (NA α))
  | xr :: Xs, pr :: Ps, d :: Ds, term =>
    let rest := lsmcLoop fit pred Xs Ps Ds term
    lsmcStep fit pred xr pr d (match rest with | [] => [] | rn :: _ => rn.2) :: rest
  | _, _, _, term => [term]

/-- Per-path discounted cashflow, source line 63:
`cashflow.T @ np.cumprod(discount_factor)`, computed as the elementwise
sum over rows of each cashflow row scaled by its cumulative discount. -/
def pathwiseCF (cf : List (List (NA α))) (cd : List α) : List (NA α) :=
  match List.zipWith (fun r d => r.map (naScale d)) cf cd with
  | [] => []
  | r :: rs => rs.foldl (fun a b => List.zipWith naAdd a b) r

/-- The discount-factor vector, source line 32:
`np.exp(-r * np.diff(t))`. -/
def lsmcDisc (expf : α → α) (r : α) (t : List α) : List α :=
  (npDiff t).map (fun d => expf (-(r * d)))

/-- The terminal-date initialisation, source lines 39-40: stopping-rule
row `M-1` is `payoff[M, :] > 0` and cashflow row `M-1` is `payoff[M, :]`. -/
def lsmcTermRow (payoff : List (List α)) (M : Nat) : List Bool × List (NA α) :=
  ((payoff.getD M []).map (fun p => decide (0 < p)), (payoff.getD M []).map some)

/-- All rows (index 0 to M-1) of the pre-collapse stopping-rule and
cashflow matrices, assembled by the backward loop from the terminal row. -/
def lsmcRows (expf : α → α) (t : List α) (X : List (List α)) (K r : α)
    (payoff_func : List (List α) → α → τ → List (List α)) (ty : τ)
    (fit : List α → List (NA α) → β) (pred : List α → β → List α) :
    List (List Bool × List (NA α)) :=
  lsmcLoop fit pred X.tail.dropLast (payoff_func X K ty).tail.dropLast
    (lsmcDisc expf r t).tail (lsmcTermRow (payoff_func X K ty) (t.length - 1))

/-- The finalised stopping-rule matrix, source line 59. -/
def lsmcRule (expf : α → α) (t : List α) (X : List (List α)) (K r : α)
    (payoff_func : List (List α) → α → τ → List (List α)) (ty : τ)
    (fit : List α → List (NA α) → β) (pred : List α → β → List α) :
    List (List Bool) :=
  collapseMat ((lsmcRows expf t X K r payoff_func ty fit pred).map Prod.fst)

/-- The finalised cashflow matrix, source line 60:
`stopping_rule * cashflow` with boolean-float multiplication (a `false`
entry turns a finite value into 0 but leaves a NaN as NaN). -/
def lsmcCFMat (expf : α → α) (t : List α) (X : List (List α)) (K r : α)
    (payoff_func : List (List α) → α → τ → List (List α)) (ty : τ)
    (fit : List α → List (NA α) → β) (pred : List α → β → List α) :
    List (List (NA α)) :=
  List.zipWith (List.zipWith (fun b x => Option.map (fun v => if b then v else 0) x))
    (lsmcRule expf t X K r payoff_func ty fit pred)
    ((lsmcRows expf t X K r payoff_func ty fit pred).map Prod.snd)

/-- The price estimate, source line 63:
`np.mean(cashflow.T @ np.cumprod(discount_factor))`. -/
def lsmcPrice (expf : α → α) (t : List α) (X : List (List α)) (K r : α)
    (payoff_func : List (List α) → α → τ → List (List α)) (ty : τ)
    (fit : List α → List (NA α) → β) (pred : List α → β → List α) : NA α :=
  naMean (pathwiseCF (lsmcCFMat expf t X K r payoff_func ty fit pred)
    (cumprod (lsmcDisc expf r t)))

/-- The body of `lsmc` after the assertions (source lines 26-63): computes
the collapsed stopping-rule matrix, the collapsed cashflow matrix and the
price estimate. -/
def lsmcBody (expf : α → α) (t : List α) (X : List (List α)) (K r : α)
    (payoff_func : List (List α) → α → τ → List (List α)) (ty : τ)
    (fit : List α → List (NA α) → β) (pred : List α → β → List α) :
    List (List Bool) × List (List (NA α)) × NA α :=
  (lsmcRule expf t X K r payoff_func ty fit pred,
   lsmcCFMat expf t X K r payoff_func ty fit pred,
   lsmcPrice expf t X K r payoff_func ty fit pred)

/-- Failure modes of a call to `lsmc`: `shape` is the AssertionError of the
three shape assertions at source lines 22-24 (the spec calls it
ShapeError); `index` is the IndexError raised at source line 40 when the
time grid has a single point, because row `M - 1 = -1` of an empty
cashflow matrix does not exist. -/
inductive LsmcError where
  | shape
  | index
  deriving DecidableEq

/-- Decidable equality of run results, used to evaluate the engine on
concrete rational inputs. -/
instance {ε γ2 : Type} [DecidableEq ε] [DecidableEq γ2] : DecidableEq (Except ε γ2)
  | Except.ok a, Except.ok b =>
    if h : a = b then Decidable.isTrue (by rw [h]) else Decidable.isFalse (by simp [h])
  | Except.ok a, Except.error e => Decidable.isFalse (by simp)
  | Except.error e, Except.ok a => Decidable.isFalse (by simp)
  | Except.error e, Except.error f =>
    if h : e = f then Decidable.isTrue (by rw [h]) else Decidable.isFalse (by simp [h])

/-- The three assertions at source lines 22-24.  A list of rows is a 2-d
numpy array exactly when it is non-empty and rectangular; a list of
scalars is always 1-dimensional, so the first assertion cannot fail in
this embedding. -/
def lsmcChecks (t : List α) (X : List (List α)) : Bool :=
  match X with
  | [] => false
  | r :: rs => rs.all (fun row => row.length == r.length) && ((r :: rs).length == t.length)

/-- The full run of `lsmc` (source lines 7-65), exposing all three derived
results.  The source function returns only the price; `lsmcG` below is
that projection. -/
def lsmcFullG (expf : α → α) (t : List α) (X : List (List α)) (K r : α)
    (payoff_func : List (List α) → α → τ → List (List α)) (ty : τ)
    (fit : List α → List (NA α) → β) (pred : List α → β → List α) :
    Except LsmcError (List (List Bool) × List (List (NA α)) × NA α) :=
  if lsmcChecks t X then
    if t.length == 1 then Except.error LsmcError.index
    else Except.ok (lsmcBody expf t X K r payoff_func ty fit pred)
  else Except.error LsmcError.shape

/-- The source function `lsmc`: its `return price` at line 65 returns only
the scalar price estimate. -/
def lsmcG (expf : α → α) (t : List α) (X : List (List α)) (K r : α)
    (payoff_func : List (List α) → α → τ → List (List α)) (ty : τ)
    (fit : List α → List (NA α) → β) (pred : List α → β → List α) :
    Except LsmcError (NA α) :=
  (lsmcFullG expf t X K r payoff_func ty fit pred).map (fun z => z.2.2)

/-- Option-type flag passed through to the payoff evaluator. -/
inductive OptionType where
  | put
  | call
  deriving DecidableEq

/-- Modelled from the spec: the external Payoff Evaluator
`european_payoff` (`application/options/payoff.py`, not under `src/`):
elementwise immediate exercise value, `max(K - S, 0)` for a put and
`max(S - K, 0)` for a call. -/
def european_payoff (X : List (List α)) (K : α) (ty : OptionType) : List (List α) :=
  X.map (fun row => row.map (fun s =>
    match ty with
    | OptionType.put => if 0 ≤ K - s then K - s else 0
    | OptionType.call => if 0 ≤ s - K then s - K else 0))

/-- The engine over the real numbers with the genuine exponential, full
results. -/
noncomputable def lsmcFull (t : List ℝ) (X : List (List ℝ)) (K r : ℝ)
    (payoff_func : List (List ℝ) → ℝ → τ → List (List ℝ)) (ty : τ)
    (fit : List ℝ → List (NA ℝ) → β) (pred : List ℝ → β → List ℝ) :
    Except LsmcError (List (List Bool) × List (List (NA ℝ)) × NA ℝ) :=
  lsmcFullG Real.exp t X K r payoff_func ty fit pred

/-- The source function `lsmc` over the real numbers: returns the price
alone. -/
noncomputable def lsmc (t : List ℝ) (X : List (List ℝ)) (K r : ℝ)
    (payoff_func : List (List ℝ) → ℝ → τ → List (List ℝ)) (ty : τ)
    (fit : List ℝ → List (NA ℝ) → β) (pred : List ℝ → β → List ℝ) :
    Except LsmcError (NA ℝ) :=
  lsmcG Real.exp t X K r payoff_func ty fit pred

/-! ## List index helper lemmas -/

theorem mapGetD {γ δ : Type} (f : γ → δ) (l : List γ) (n : Nat) (d : γ) (d2 : δ)
    (h : n < l.length) : (l.map f).getD n d2 = f (l.getD n d) := by
  induction l generalizing n with
  | nil => simp at h
  | cons x xs ih =>
    cases n with
    | zero => simp
    | succ k => simpa using ih k (by simpa using h)

theorem zipWithGetD {γ δ ε : Type} (f : γ → δ → ε) (a : List γ) (b : List δ) (n : Nat)
    (da : γ) (db : δ) (d : ε) (ha : n < a.length) (hb : n < b.length) :
    (List.zipWith f a b).getD n d = f (a.getD n da) (b.getD n db) := by
  induction a generalizing b n with
  | nil => simp at ha
  | cons x xs ih =>
    cases b with
    | nil => simp at hb
    | cons y ys =>
      cases n with
      | zero => simp
      | succ k => simpa using ih ys k (by simpa using ha) (by simpa using hb)

theorem tailGetD {γ : Type} (l : List γ) (n : Nat) (d : γ) :
    (l.tail).getD n d = l.getD (n + 1) d := by
  cases l <;> simp

theorem dropLastGetD {γ : Type} (l : List γ) (n : Nat) (d : γ) (h : n + 1 < l.length) :
    (l.dropLast).getD n d = l.getD n d := by
  induction l generalizing n with
  | nil => simp at h
  | cons x xs ih =>
    cases xs with
    | nil => simp at h
    | cons y ys =>
      cases n with
      | zero => simp [List.dropLast]
      | succ k =>
        have hk : k + 1 < (y :: ys).length := by simpa using h
        simpa [List.dropLast] using ih k hk

theorem getDMemOf {γ : Type} (l : List γ) (n : Nat) (d : γ) (h : n < l.length) :
    l.getD n d ∈ l := by
  rw [List.getD_eq_getElem l d h]
  exact List.getElem_mem h

/-! ## Cumulative sums on a single column -/

theorem cumsumColFromLength (a : Nat) (l : List Nat) :
    (cumsumColFrom a l).length = l.length := by
  induction l generalizing a with
  | nil => rfl
  | cons x xs ih => simp [cumsumColFrom, ih]

theorem cumsumColLength (l : List Nat) : (cumsumCol l).length = l.length := by
  cases l with
  | nil => rfl
  | cons x xs => simp [cumsumCol, cumsumColFromLength]

theorem cumsumColFromZero (l : List Nat) : cumsumColFrom 0 l = cumsumCol l := by
  cases l with
  | nil => rfl
  | cons x xs => simp [cumsumColFrom, cumsumCol]

theorem memCumsumColFromGe (a : Nat) (l : List Nat) :
    ∀ y ∈ cumsumColFrom a l, a ≤ y := by
  induction l generalizing a with
  | nil => intro y hy; simp [cumsumColFrom] at hy
  | cons x xs ih =>
    intro y hy
    simp only [cumsumColFrom, List.mem_cons] at hy
    rcases hy with h | h
    · omega
    · have := ih (a + x) y h; omega

theorem cumsumColCons (x : Nat) (xs : List Nat) :
    cumsumCol (x :: xs) = x :: cumsumColFrom x xs := rfl

theorem mapConstFalse {γ : Type} (l : List γ) :
    l.map (fun _ => false) = List.replicate l.length false := by
  induction l with
  | nil => rfl
  | cons x xs ih => simp [ih, List.replicate]

theorem cumsumColFromBigMapOne (a : Nat) (l : List Nat) (ha : 1 ≤ a)
    (hl : ∀ y ∈ l, 1 ≤ y) :
    (cumsumColFrom a l).map (fun c => c == 1) = l.map (fun _ => false) := by
  induction l generalizing a with
  | nil => rfl
  | cons x xs ih =>
    have hx : 1 ≤ x := hl x (by simp)
    simp only [cumsumColFrom, List.map_cons, List.cons.injEq]
    refine ⟨by simp [beq_eq_false_iff_ne]; omega, ?_⟩
    exact ih (a + x) (by omega) (fun y hy => hl y (by simp [hy]))

/-- Core equivalence: the double-cumulative-sum filter on one column keeps
exactly the first true entry. -/
theorem collapseColEqFirstTrueOnly (b : List Bool) :
    collapseCol b = firstTrueOnly b := by
  induction b with
  | nil => rfl
  | cons x bs ih =>
    cases x with
    | false =>
      calc collapseCol (false :: bs)
          = (cumsumCol (cumsumCol (0 :: (bs.map boolToNat)))).map (fun c => c == 1) := by
            simp [collapseCol, boolToNat]
        _ = (cumsumCol (0 :: cumsumCol (bs.map boolToNat))).map (fun c => c == 1) := by
            rw [cumsumColCons, cumsumColFromZero]
        _ = (0 :: cumsumCol (cumsumCol (bs.map boolToNat))).map (fun c => c == 1) := by
            rw [cumsumColCons, cumsumColFromZero]
        _ = false :: collapseCol bs := by simp [collapseCol]
        _ = false :: firstTrueOnly bs := by rw [ih]
        _ = firstTrueOnly (false :: bs) := by simp [firstTrueOnly]
    | true =>
      have hge : ∀ y ∈ cumsumColFrom 1 (bs.map boolToNat), 1 ≤ y :=
        memCumsumColFromGe 1 (bs.map boolToNat)
      calc collapseCol (true :: bs)
          = (cumsumCol (cumsumCol (1 :: (bs.map boolToNat)))).map (fun c => c == 1) := by
            simp [collapseCol, boolToNat]
        _ = (1 :: cumsumColFrom 1 (cumsumColFrom 1 (bs.map boolToNat))).map
              (fun c => c == 1) := by
            rw [cumsumColCons, cumsumColCons]
        _ = true :: (cumsumColFrom 1 (cumsumColFrom 1 (bs.map boolToNat))).map
              (fun c => c == 1) := by simp
        _ = true :: (cumsumColFrom 1 (bs.map boolToNat)).map (fun _ => false) := by
            rw [cumsumColFromBigMapOne 1 (cumsumColFrom 1 (bs.map boolToNat)) le_rfl hge]
        _ = true :: bs.map (fun _ => false) := by
            rw [mapConstFalse, mapConstFalse, cumsumColFromLength, List.length_map]
        _ = firstTrueOnly (true :: bs) := by simp [firstTrueOnly]

/-! ## Properties of the first-true scan -/

theorem firstTrueOnlyLength (b : List Bool) : (firstTrueOnly b).length = b.length := by
  induction b with
  | nil => rfl
  | cons x bs ih => cases x <;> simp [firstTrueOnly, ih]

theorem countTrueFirstTrueOnly (b : List Bool) :
    (firstTrueOnly b).count true = 0 ∨ (firstTrueOnly b).count true = 1 := by
  induction b with
  | nil => simp [firstTrueOnly]
  | cons x bs ih =>
    cases x with
    | false => simpa [firstTrueOnly] using ih
    | true =>
      right
      simp [firstTrueOnly, mapConstFalse, List.count_replicate]

theorem firstTrueOnlyConsFalse (bs : List Bool) :
    firstTrueOnly (false :: bs) = false :: firstTrueOnly bs := by
  simp [firstTrueOnly]

theorem firstTrueOnlyConsTrue (bs : List Bool) :
    firstTrueOnly (true :: bs) = true :: bs.map (fun _ => false) := by
  simp [firstTrueOnly]

theorem firstTrueOnlyGetDImp (b : List Bool) (i : Nat)
    (h : (firstTrueOnly b).getD i false = true) : b.getD i false = true := by
  induction b generalizing i with
  | nil => simpa [firstTrueOnly] using h
  | cons x bs ih =>
    cases x with
    | false =>
      cases i with
      | zero => rw [firstTrueOnlyConsFalse] at h; simpa using h
      | succ k =>
        rw [firstTrueOnlyConsFalse, List.getD_cons_succ] at h
        simpa using ih k h
    | true =>
      cases i with
      | zero => simp
      | succ k =>
        exfalso
        rw [firstTrueOnlyConsTrue, List.getD_cons_succ, mapConstFalse] at h
        rcases Nat.lt_or_ge k bs.length with hk | hk
        · rw [List.getD_eq_getElem _ _ (by simpa using hk)] at h
          simp at h
        · rw [List.getD_eq_default _ _ (by simpa using hk)] at h
          exact Bool.false_ne_true h

theorem firstTrueOnlyLast (b : List Bool)
    (hlast : b.getD (b.length - 1) false = true)
    (hearly : ∀ i, i + 1 < b.length → (firstTrueOnly b).getD i false = false) :
    (firstTrueOnly b).getD (b.length - 1) false = true := by
  induction b with
  | nil => simpa using hlast
  | cons x bs ih =>
    cases bs with
    | nil =>
      cases x with
      | true => simp [firstTrueOnly]
      | false => simpa using hlast
    | cons y ys =>
      cases x with
      | true =>
        exfalso
        have h0 := hearly 0 (by simp)
        rw [firstTrueOnlyConsTrue] at h0
        simp at h0
      | false =>
        have hlen : (false :: y :: ys).length - 1 = (y :: ys).length - 1 + 1 := by
          simp
        rw [hlen] at hlast ⊢
        rw [firstTrueOnlyConsFalse, List.getD_cons_succ]
        rw [List.getD_cons_succ] at hlast
        refine ih hlast ?_
        intro i hi
        have := hearly (i + 1) (by simpa using Nat.succ_lt_succ hi)
        rw [firstTrueOnlyConsFalse, List.getD_cons_succ] at this
        exact this

/-! ## Columns of the matrix-level collapse -/

theorem addRowsGetD (a b : List Nat) (n : Nat) (ha : n < a.length) (hb : n < b.length) :
    (addRows a b).getD n 0 = a.getD n 0 + b.getD n 0 :=
  zipWithGetD (· + ·) a b n 0 0 0 ha hb

theorem addRowsLength (a b : List Nat) : (addRows a b).length = min a.length b.length := by
  simp [addRows]

theorem cumsumRowsFromRect (m : List (List Nat)) (w : Nat) (acc : List Nat)
    (hm : ∀ r ∈ m, r.length = w) (hacc : acc.length = w) :
    ∀ r2 ∈ cumsumRowsFrom acc m, r2.length = w := by
  induction m generalizing acc with
  | nil => intro r2 h; simp [cumsumRowsFrom] at h
  | cons r rs ih =>
    intro r2 h2
    have hr : r.length = w := hm r (by simp)
    have hlen : (addRows acc r).length = w := by
      rw [addRowsLength, hacc, hr]; omega
    simp only [cumsumRowsFrom, List.mem_cons] at h2
    rcases h2 with h2 | h2
    · rw [h2]; exact hlen
    · exact ih (addRows acc r) (fun x hx => hm x (List.mem_cons_of_mem r hx)) hlen r2 h2

theorem cumsumRowsRect (m : List (List Nat)) (w : Nat)
    (hm : ∀ r ∈ m, r.length = w) : ∀ r2 ∈ cumsumRows m, r2.length = w := by
  cases m with
  | nil => intro r2 h; simp [cumsumRows] at h
  | cons r rs =>
    intro r2 h2
    have hr : r.length = w := hm r (by simp)
    simp only [cumsumRows, List.mem_cons] at h2
    rcases h2 with h2 | h2
    · rw [h2]; exact hr
    · exact cumsumRowsFromRect rs w r (fun x hx => hm x (List.mem_cons_of_mem r hx)) hr r2 h2

theorem colDCumsumRowsFrom (m : List (List Nat)) (w n : Nat) (acc : List Nat)
    (hm : ∀ r ∈ m, r.length = w) (hacc : acc.length = w) (hn : n < w) :
    colD n (cumsumRowsFrom acc m) 0 = cumsumColFrom (acc.getD n 0) (colD n m 0) := by
  induction m generalizing acc with
  | nil => simp [cumsumRowsFrom, colD, cumsumColFrom]
  | cons r rs ih =>
    have hr : r.length = w := hm r (by simp)
    have hlen : (addRows acc r).length = w := by
      rw [addRowsLength, hacc, hr]; omega
    have hget : (addRows acc r).getD n 0 = acc.getD n 0 + r.getD n 0 :=
      addRowsGetD acc r n (by omega) (by omega)
    simp only [cumsumRowsFrom, colD, List.map_cons, cumsumColFrom]
    rw [← colD, ← colD, ih (addRows acc r) (fun x hx => hm x (List.mem_cons_of_mem r hx)) hlen, hget]

theorem colDCumsumRows (m : List (List Nat)) (w n : Nat)
    (hm : ∀ r ∈ m, r.length = w) (hn : n < w) :
    colD n (cumsumRows m) 0 = cumsumCol (colD n m 0) := by
  cases m with
  | nil => simp [cumsumRows, colD, cumsumCol]
  | cons r rs =>
    have hr : r.length = w := hm r (by simp)
    simp only [cumsumRows, colD, List.map_cons, cumsumCol]
    rw [← colD, ← colD, colDCumsumRowsFrom rs w n r (fun x hx => hm x (List.mem_cons_of_mem r hx)) hr hn]

theorem colDMapMap {γ δ : Type} (f : γ → δ) (m : List (List γ)) (w n : Nat) (d : γ) (d2 : δ)
    (hm : ∀ r ∈ m, r.length = w) (hn : n < w) :
    colD n (m.map (fun r => r.map f)) d2 = (colD n m d).map f := by
  simp only [colD, List.map_map]
  refine List.map_congr_left ?_
  intro r hr
  exact mapGetD f r n d d2 (by rw [hm r hr]; omega)

/-- Column extraction through the matrix-level double-cumsum collapse. -/
theorem colDCollapseMat (s : List (List Bool)) (w n : Nat)
    (hs : ∀ r ∈ s, r.length = w) (hn : n < w) :
    colD n (collapseMat s) false = collapseCol (colD n s false) := by
  have h0 : ∀ r ∈ s.map (fun r => r.map boolToNat), r.length = w := by
    intro r hr
    rcases List.mem_map.mp hr with ⟨r0, hr0, rfl⟩
    simp [hs r0 hr0]
  have h1 : ∀ r ∈ cumsumRows (s.map (fun r => r.map boolToNat)), r.length = w :=
    cumsumRowsRect _ w h0
  have h2 : ∀ r ∈ cumsumRows (cumsumRows (s.map (fun r => r.map boolToNat))),
      r.length = w := cumsumRowsRect _ w h1
  unfold collapseMat collapseCol
  rw [colDMapMap (fun c => c == 1) _ w n 0 false h2 hn]
  rw [colDCumsumRows _ w n h1 hn, colDCumsumRows _ w n h0 hn]
  rw [colDMapMap boolToNat s w n false 0 hs hn]

/-! ## Structure of the backward loop -/

theorem maskedGTLength (ps : List α) (ms : List Bool) (es : List α) :
    (maskedGT ps ms es).length = min ps.length ms.length := by
  induction ps generalizing ms es with
  | nil => simp [maskedGT]
  | cons p ps ih =>
    cases ms with
    | nil => simp [maskedGT]
    | cons m ms =>
      cases m with
      | false => simp [maskedGT, ih]; omega
      | true =>
        cases es with
        | nil => simp [maskedGT, ih]; omega
        | cons e es2 => simp [maskedGT, ih]; omega

theorem lsmcStepFst (fit : List α → List (NA α) → β) (pred : List α → β → List α)
    (xr pr : List α) (d : α) (cfNext : List (NA α)) :
    (lsmcStep fit pred xr pr d cfNext).1 =
      maskedGT pr (itmMask pr)
        (pred (maskFilter xr (itmMask pr))
          (fit (maskFilter xr (itmMask pr))
            ((maskFilter cfNext (itmMask pr)).map (naScale d)))) := rfl

theorem lsmcStepSnd (fit : List α → List (NA α) → β) (pred : List α → β → List α)
    (xr pr : List α) (d : α) (cfNext : List (NA α)) :
    (lsmcStep fit pred xr pr d cfNext).2 =
      List.zipWith (fun b p => some (if b then p else 0))
        (lsmcStep fit pred xr pr d cfNext).1 pr := rfl

theorem lsmcStepFstLength (fit : List α → List (NA α) → β) (pred : List α → β → List α)
    (xr pr : List α) (d : α) (cfNext : List (NA α)) :
    (lsmcStep fit pred xr pr d cfNext).1.length = pr.length := by
  rw [lsmcStepFst, maskedGTLength]
  simp [itmMask]

theorem lsmcStepSndLength (fit : List α → List (NA α) → β) (pred : List α → β → List α)
    (xr pr : List α) (d : α) (cfNext : List (NA α)) :
    (lsmcStep fit pred xr pr d cfNext).2.length = pr.length := by
  rw [lsmcStepSnd]
  simp [lsmcStepFstLength]

theorem lsmcLoopNeNil (fit : List α → List (NA α) → β) (pred : List α → β → List α)
    (Xs Ps : List (List α)) (Ds : List α) (term : List Bool × List (NA α)) :
    lsmcLoop fit pred Xs Ps Ds term ≠ [] := by
  cases Xs <;> cases Ps <;> cases Ds <;> simp [lsmcLoop]

theorem lsmcLoopCons (fit : List α → List (NA α) → β) (pred : List α → β → List α)
    (xr pr : List α) (d : α) (Xs Ps : List (List α)) (Ds : List α)
    (term : List Bool × List (NA α)) :
    lsmcLoop fit pred (xr :: Xs) (pr :: Ps) (d :: Ds) term =
      lsmcStep fit pred xr pr d
          ((lsmcLoop fit pred Xs Ps Ds term).getD 0 ([], [])).2 ::
        lsmcLoop fit pred Xs Ps Ds term := by
  have h := lsmcLoopNeNil fit pred Xs Ps Ds term
  cases hrest : lsmcLoop fit pred Xs Ps Ds term with
  | nil => exact absurd hrest h
  | cons a as => simp [lsmcLoop, hrest]

theorem lsmcLoopLength (fit : List α → List (NA α) → β) (pred : List α → β → List α)
    (Xs Ps : List (List α)) (Ds : List α) (term : List Bool × List (NA α))
    (hX : Xs.length = Ps.length) (hD : Ds.length = Ps.length) :
    (lsmcLoop fit pred Xs Ps Ds term).length = Ps.length + 1 := by
  induction Ps generalizing Xs Ds with
  | nil =>
    rw [List.length_eq_zero.mp hX, List.length_eq_zero.mp hD]
    simp [lsmcLoop]
  | cons p Ps ih =>
    cases Xs with
    | nil => simp at hX
    | cons x Xs =>
      cases Ds with
      | nil => simp at hD
      | cons d Ds =>
        rw [lsmcLoopCons]
        simp only [List.length_cons]
        rw [ih Xs Ds (by simpa using hX) (by simpa using hD)]

theorem lsmcLoopGetD (fit : List α → List (NA α) → β) (pred : List α → β → List α)
    (Xs Ps : List (List α)) (Ds : List α) (term : List Bool × List (NA α)) (i : Nat)
    (hX : Xs.length = Ps.length) (hD : Ds.length = Ps.length) (hi : i < Ps.length) :
    (lsmcLoop fit pred Xs Ps Ds term).getD i ([], []) =
      lsmcStep fit pred (Xs.getD i []) (Ps.getD i []) (Ds.getD i 0)
        ((lsmcLoop fit pred Xs Ps Ds term).getD (i + 1) ([], [])).2 := by
  induction Ps generalizing Xs Ds i with
  | nil => simp at hi
  | cons p Ps ih =>
    cases Xs with
    | nil => simp at hX
    | cons x Xs =>
      cases Ds with
      | nil => simp at hD
      | cons d Ds =>
        cases i with
        | zero => rw [lsmcLoopCons]; simp
        | succ k =>
          rw [lsmcLoopCons]
          simp only [List.getD_cons_succ]
          exact ih Xs Ds k (by simpa using hX) (by simpa using hD) (by simpa using hi)

theorem lsmcLoopGetDLast (fit : List α → List (NA α) → β) (pred : List α → β → List α)
    (Xs Ps : List (List α)) (Ds : List α) (term : List Bool × List (NA α))
    (hX : Xs.length = Ps.length) (hD : Ds.length = Ps.length) :
    (lsmcLoop fit pred Xs Ps Ds term).getD Ps.length ([], []) = term := by
  induction Ps generalizing Xs Ds with
  | nil =>
    rw [List.length_eq_zero.mp hX, List.length_eq_zero.mp hD]
    simp [lsmcLoop]
  | cons p Ps ih =>
    cases Xs with
    | nil => simp at hX
    | cons x Xs =>
      cases Ds with
      | nil => simp at hD
      | cons d Ds =>
        rw [lsmcLoopCons]
        simp only [List.length_cons, List.getD_cons_succ]
        exact ih Xs Ds (by simpa using hX) (by simpa using hD)

theorem lsmcLoopRect (fit : List α → List (NA α) → β) (pred : List α → β → List α)
    (Xs Ps : List (List α)) (Ds : List α) (term : List Bool × List (NA α)) (w : Nat)
    (hP : ∀ pr ∈ Ps, pr.length = w) (ht1 : term.1.length = w) (ht2 : term.2.length = w) :
    ∀ pr2 ∈ lsmcLoop fit pred Xs Ps Ds term,
      pr2.1.length = w ∧ pr2.2.length = w := by
  induction Xs generalizing Ps Ds with
  | nil =>
    intro pr2 h2
    simp only [lsmcLoop, List.mem_singleton] at h2
    rw [h2]
    exact ⟨ht1, ht2⟩
  | cons x Xs ih =>
    cases Ps with
    | nil =>
      intro pr2 h2
      simp only [lsmcLoop, List.mem_singleton] at h2
      rw [h2]
      exact ⟨ht1, ht2⟩
    | cons p Ps =>
      cases Ds with
      | nil =>
        intro pr2 h2
        simp only [lsmcLoop, List.mem_singleton] at h2
        rw [h2]
        exact ⟨ht1, ht2⟩
      | cons d Ds =>
        intro pr2 h2
        rw [lsmcLoopCons] at h2
        rcases List.mem_cons.mp h2 with h2 | h2
        · rw [h2]
          constructor
          · rw [lsmcStepFstLength]
            exact hP p (by simp)
          · rw [lsmcStepSndLength]
            exact hP p (by simp)
        · exact ih Ps Ds (fun q hq => hP q (List.mem_cons_of_mem p hq)) pr2 h2

/-! ## Indexing through the masked comparison -/

theorem maskFilterLength {γ : Type} (xs : List γ) (ms : List Bool)
    (h : xs.length = ms.length) :
    (maskFilter xs ms).length = ms.countP (fun b => b) := by
  induction xs generalizing ms with
  | nil =>
    have : ms = [] := by
      cases ms with
      | nil => rfl
      | cons m ms2 => simp at h
    rw [this]
    simp [maskFilter]
  | cons x xs ih =>
    cases ms with
    | nil => simp at h
    | cons m ms =>
      cases m with
      | false => simp [maskFilter, List.countP_cons, ih ms (by simpa using h)]
      | true => simp [maskFilter, List.countP_cons, ih ms (by simpa using h)]

theorem countPTakeLt (ms : List Bool) (n : Nat) (hn : n < ms.length)
    (hm : ms.getD n false = true) :
    (ms.take n).countP (fun b => b) < ms.countP (fun b => b) := by
  induction ms generalizing n with
  | nil => simp at hn
  | cons m ms ih =>
    cases n with
    | zero =>
      have hmt : m = true := by simpa using hm
      simp [hmt, List.countP_cons]
    | succ k =>
      have hk : k < ms.length := by simpa using hn
      have := ih k hk (by simpa using hm)
      simp only [List.take_succ_cons, List.countP_cons]
      omega

theorem maskedGTGetDFalse (ps : List α) (ms : List Bool) (es : List α) (n : Nat)
    (hm : ms.getD n false = false) :
    (maskedGT ps ms es).getD n false = false := by
  induction ps generalizing ms es n with
  | nil => simp [maskedGT]
  | cons p ps ih =>
    cases ms with
    | nil => simp [maskedGT]
    | cons m ms =>
      cases n with
      | zero =>
        have hmf : m = false := by simpa using hm
        subst hmf
        simp [maskedGT]
      | succ k =>
        have hk : ms.getD k false = false := by simpa using hm
        cases m with
        | false => simpa [maskedGT] using ih ms es k hk
        | true =>
          cases es with
          | nil => simpa [maskedGT] using ih ms [] k hk
          | cons e es2 => simpa [maskedGT] using ih ms es2 k hk

theorem maskedGTGetDTrue (ps : List α) (ms : List Bool) (es : List α) (n : Nat)
    (hn : n < ps.length) (hm : ms.getD n false = true)
    (hes : ms.countP (fun b => b) ≤ es.length) :
    (maskedGT ps ms es).getD n false =
      decide (es.getD ((ms.take n).countP (fun b => b)) 0 < ps.getD n 0) := by
  induction ps generalizing ms es n with
  | nil => simp at hn
  | cons p ps ih =>
    cases ms with
    | nil => simp at hm
    | cons m ms =>
      cases n with
      | zero =>
        have hmt : m = true := by simpa using hm
        subst hmt
        have hne : es ≠ [] := by
          intro h
          rw [h] at hes
          simp [List.countP_cons] at hes
        cases es with
        | nil => exact absurd rfl hne
        | cons e es2 => simp [maskedGT]
      | succ k =>
        have hk : ms.getD k false = true := by simpa using hm
        have hkp : k < ps.length := by simpa using hn
        cases m with
        | false =>
          have hes2 : ms.countP (fun b => b) ≤ es.length := by
            simpa [List.countP_cons] using hes
          simpa [maskedGT, List.countP_cons] using ih ms es k hkp hk hes2
        | true =>
          have hne : es ≠ [] := by
            intro h
            rw [h] at hes
            simp [List.countP_cons] at hes
          cases es with
          | nil => exact absurd rfl hne
          | cons e es2 =>
            have hes2 : ms.countP (fun b => b) ≤ es2.length := by
              simp [List.countP_cons] at hes
              omega
            have hrec := ih ms es2 k hkp hk hes2
            calc (maskedGT (p :: ps) (true :: ms) (e :: es2)).getD (k + 1) false
                = (maskedGT ps ms es2).getD k false := by simp [maskedGT]
              _ = decide (es2.getD ((ms.take k).countP (fun b => b)) 0 <
                    ps.getD k 0) := hrec
              _ = decide ((e :: es2).getD
                    (((true :: ms).take (k + 1)).countP (fun b => b)) 0 <
                    (p :: ps).getD (k + 1) 0) := by
                  simp [List.countP_cons]

/-! ## Sums of discounted cashflows -/

theorem naSumAllZero (l : List (NA α)) (h : ∀ x ∈ l, x = some 0) : naSum l = some 0 := by
  induction l with
  | nil => rfl
  | cons x xs ih =>
    have hx : x = some 0 := h x (by simp)
    have hxs : naSum xs = some 0 := ih (fun y hy => h y (List.mem_cons_of_mem x hy))
    simp [naSum] at hxs ⊢
    rw [hx, hxs]
    simp [naAdd]

theorem memOfAllGetD {γ : Type} (l : List γ) (d c : γ)
    (h : ∀ n, n < l.length → l.getD n d = c) : ∀ x ∈ l, x = c := by
  intro x hx
  rcases List.mem_iff_getElem.mp hx with ⟨i, hi, rfl⟩
  rw [← List.getD_eq_getElem l d hi]
  exact h i hi

theorem foldlNaAddLength (rows : List (List (NA α))) (a : List (NA α)) (w : Nat)
    (ha : a.length = w) (hr : ∀ r ∈ rows, r.length = w) :
    (rows.foldl (fun x y => List.zipWith naAdd x y) a).length = w := by
  induction rows generalizing a with
  | nil => simpa using ha
  | cons r rs ih =>
    have hrl : r.length = w := hr r (by simp)
    have hlen : (List.zipWith naAdd a r).length = w := by
      rw [List.length_zipWith, ha, hrl]; omega
    simpa using ih (List.zipWith naAdd a r) hlen
      (fun q hq => hr q (List.mem_cons_of_mem r hq))

theorem foldlNaAddZero (rows : List (List (NA α))) (a : List (NA α)) (w n : Nat)
    (ha : a.length = w) (hn : n < w) (haz : a.getD n none = some 0)
    (hr : ∀ r ∈ rows, r.length = w ∧ r.getD n none = some 0) :
    (rows.foldl (fun x y => List.zipWith naAdd x y) a).getD n none = some 0 := by
  induction rows generalizing a with
  | nil => simpa using haz
  | cons r rs ih =>
    have hrl : r.length = w := (hr r (by simp)).1
    have hrz : r.getD n none = some 0 := (hr r (by simp)).2
    have hlen : (List.zipWith naAdd a r).length = w := by
      rw [List.length_zipWith, ha, hrl]; omega
    have hz : (List.zipWith naAdd a r).getD n none = some 0 := by
      rw [zipWithGetD naAdd a r n none none none (by omega) (by omega), haz, hrz]
      simp [naAdd]
    simpa using ih (List.zipWith naAdd a r) hlen hz
      (fun q hq => hr q (List.mem_cons_of_mem r hq))

theorem scaledRowsLen (rs : List (List (NA α))) (ds : List α) (w : Nat)
    (h : ∀ r ∈ rs, r.length = w) :
    ∀ x ∈ List.zipWith (fun r d => r.map (naScale d)) rs ds, x.length = w := by
  induction rs generalizing ds with
  | nil => intro x hx; simp at hx
  | cons r rs ih =>
    cases ds with
    | nil => intro x hx; simp at hx
    | cons d ds =>
      intro x hx
      rcases List.mem_cons.mp (by simpa using hx) with hx | hx
      · rw [hx]; simp [h r (by simp)]
      · exact ih ds (fun q hq => h q (List.mem_cons_of_mem r hq)) x hx

theorem scaledRowsZero (rs : List (List (NA α))) (ds : List α) (w n : Nat) (hn : n < w)
    (h : ∀ r ∈ rs, r.length = w ∧ r.getD n none = some 0) :
    ∀ x ∈ List.zipWith (fun r d => r.map (naScale d)) rs ds,
      x.length = w ∧ x.getD n none = some 0 := by
  induction rs generalizing ds with
  | nil => intro x hx; simp at hx
  | cons r rs ih =>
    cases ds with
    | nil => intro x hx; simp at hx
    | cons d ds =>
      intro x hx
      rcases List.mem_cons.mp (by simpa using hx) with hx | hx
      · have hrl : r.length = w := (h r (by simp)).1
        have hrz : r.getD n none = some 0 := (h r (by simp)).2
        constructor
        · rw [hx]; simp [hrl]
        · rw [hx, mapGetD (naScale d) r n none none (by omega), hrz]
          simp [naScale]
      · exact ih ds (fun q hq => h q (List.mem_cons_of_mem r hq)) x hx

theorem pathwiseCFLength (cf : List (List (NA α))) (cd : List α) (w : Nat)
    (hne : cf ≠ []) (hlen : cf.length = cd.length) (hw : ∀ r ∈ cf, r.length = w) :
    (pathwiseCF cf cd).length = w := by
  cases cf with
  | nil => exact absurd rfl hne
  | cons r rs =>
    cases cd with
    | nil => simp at hlen
    | cons d ds =>
      simp only [pathwiseCF, List.zipWith_cons_cons]
      refine foldlNaAddLength _ _ w (by simp [hw r (by simp)]) ?_
      exact scaledRowsLen rs ds w (fun q hq => hw q (List.mem_cons_of_mem r hq))

theorem pathwiseCFZero (cf : List (List (NA α))) (cd : List α) (w n : Nat)
    (hne : cf ≠ []) (hlen : cf.length = cd.length) (hn : n < w)
    (h : ∀ r ∈ cf, r.length = w ∧ r.getD n none = some 0) :
    (pathwiseCF cf cd).getD n none = some 0 := by
  cases cf with
  | nil => exact absurd rfl hne
  | cons r rs =>
    cases cd with
    | nil => simp at hlen
    | cons d ds =>
      simp only [pathwiseCF, List.zipWith_cons_cons]
      have hrl : r.length = w := (h r (by simp)).1
      have hrz : r.getD n none = some 0 := (h r (by simp)).2
      refine foldlNaAddZero _ _ w n (by simp [hrl]) hn ?_ ?_
      · rw [mapGetD (naScale d) r n none none (by omega), hrz]
        simp [naScale]
      · intro q hq
        exact scaledRowsZero rs ds w n hn
          (fun q2 hq2 => h q2 (List.mem_cons_of_mem r hq2)) q hq

/-! ## Shape facts about the assembled engine -/

theorem npDiffLength (t : List α) : (npDiff t).length = t.length - 1 := by
  simp [npDiff]

theorem lsmcDiscLength (expf : α → α) (r : α) (t : List α) :
    (lsmcDisc expf r t).length = t.length - 1 := by
  simp [lsmcDisc, npDiffLength]

theorem lsmcTermRowFstLength (payoff : List (List α)) (M N : Nat)
    (hM : M < payoff.length) (hPw : ∀ row ∈ payoff, row.length = N) :
    (lsmcTermRow payoff M).1.length = N := by
  simp only [lsmcTermRow, List.length_map]
  exact hPw _ (getDMemOf payoff M [] hM)

theorem lsmcTermRowSndLength (payoff : List (List α)) (M N : Nat)
    (hM : M < payoff.length) (hPw : ∀ row ∈ payoff, row.length = N) :
    (lsmcTermRow payoff M).2.length = N := by
  simp only [lsmcTermRow, List.length_map]
  exact hPw _ (getDMemOf payoff M [] hM)

theorem lsmcRowsRect (expf : α → α) (t : List α) (X : List (List α)) (K r : α)
    (payoff_func : List (List α) → α → τ → List (List α)) (ty : τ)
    (fit : List α → List (NA α) → β) (pred : List α → β → List α) (N : Nat)
    (hPw : ∀ row ∈ payoff_func X K ty, row.length = N)
    (hPl : (payoff_func X K ty).length = t.length) (hT : 2 ≤ t.length) :
    ∀ pr2 ∈ lsmcRows expf t X K r payoff_func ty fit pred,
      pr2.1.length = N ∧ pr2.2.length = N := by
  have hM : t.length - 1 < (payoff_func X K ty).length := by rw [hPl]; omega
  refine lsmcLoopRect fit pred _ _ _ _ N ?_ ?_ ?_
  · intro pr hpr
    exact hPw pr (List.tail_subset _ (List.dropLast_subset _ hpr))
  · exact lsmcTermRowFstLength _ _ N hM hPw
  · exact lsmcTermRowSndLength _ _ N hM hPw

theorem lsmcRuleColFirstTrue (expf : α → α) (t : List α) (X : List (List α)) (K r : α)
    (payoff_func : List (List α) → α → τ → List (List α)) (ty : τ)
    (fit : List α → List (NA α) → β) (pred : List α → β → List α) (N n : Nat)
    (hPw : ∀ row ∈ payoff_func X K ty, row.length = N)
    (hPl : (payoff_func X K ty).length = t.length) (hT : 2 ≤ t.length) (hn : n < N) :
    colD n (lsmcRule expf t X K r payoff_func ty fit pred) false =
      firstTrueOnly
        (colD n ((lsmcRows expf t X K r payoff_func ty fit pred).map Prod.fst) false) := by
  have hrect : ∀ row ∈ (lsmcRows expf t X K r payoff_func ty fit pred).map Prod.fst,
      row.length = N := by
    intro row hrow
    rcases List.mem_map.mp hrow with ⟨pr2, hpr2, rfl⟩
    exact (lsmcRowsRect expf t X K r payoff_func ty fit pred N hPw hPl hT pr2 hpr2).1
  rw [lsmcRule, colDCollapseMat _ N n hrect hn, collapseColEqFirstTrueOnly]

theorem colDEntry {γ : Type} (m : List (List γ)) (i n : Nat) (d : γ)
    (hi : i < m.length) :
    (colD n m d).getD i d = (m.getD i []).getD n d := by
  simp only [colD]
  exact mapGetD (fun r => r.getD n d) m i [] d hi

theorem lsmcRowsCount (expf : α → α) (t : List α) (X : List (List α)) (K r : α)
    (payoff_func : List (List α) → α → τ → List (List α)) (ty : τ)
    (fit : List α → List (NA α) → β) (pred : List α → β → List α)
    (hXl : X.length = t.length) (hPl : (payoff_func X K ty).length = t.length)
    (hT : 2 ≤ t.length) :
    (lsmcRows expf t X K r payoff_func ty fit pred).length = t.length - 1 := by
  have hx : X.tail.dropLast.length = (payoff_func X K ty).tail.dropLast.length := by
    simp [List.length_dropLast, List.length_tail, hXl, hPl]
  have hd : (lsmcDisc expf r t).tail.length
      = (payoff_func X K ty).tail.dropLast.length := by
    simp [List.length_tail, List.length_dropLast, lsmcDiscLength, hPl]
  rw [lsmcRows, lsmcLoopLength _ _ _ _ _ _ hx hd]
  simp only [List.length_dropLast, List.length_tail, hPl]
  omega

theorem lsmcRowsGetDInterior (expf : α → α) (t : List α) (X : List (List α)) (K r : α)
    (payoff_func : List (List α) → α → τ → List (List α)) (ty : τ)
    (fit : List α → List (NA α) → β) (pred : List α → β → List α) (i : Nat)
    (hXl : X.length = t.length) (hPl : (payoff_func X K ty).length = t.length)
    (hi : i < t.length - 2) :
    (lsmcRows expf t X K r payoff_func ty fit pred).getD i ([], []) =
      lsmcStep fit pred (X.getD (i + 1) []) ((payoff_func X K ty).getD (i + 1) [])
        ((lsmcDisc expf r t).getD (i + 1) 0)
        ((lsmcRows expf t X K r payoff_func ty fit pred).getD (i + 1) ([], [])).2 := by
  have hx : X.tail.dropLast.length = (payoff_func X K ty).tail.dropLast.length := by
    simp [List.length_dropLast, List.length_tail, hXl, hPl]
  have hd : (lsmcDisc expf r t).tail.length
      = (payoff_func X K ty).tail.dropLast.length := by
    simp [List.length_tail, List.length_dropLast, lsmcDiscLength, hPl]
  have hip : i < (payoff_func X K ty).tail.dropLast.length := by
    simp [List.length_dropLast, List.length_tail, hPl]
    omega
  rw [lsmcRows, lsmcLoopGetD _ _ _ _ _ _ i hx hd hip]
  rw [dropLastGetD X.tail i []
    (by simp [List.length_tail, hXl]; omega), tailGetD]
  rw [dropLastGetD (payoff_func X K ty).tail i []
    (by simp [List.length_tail, hPl]; omega), tailGetD]
  rw [tailGetD]

theorem lsmcRowsGetDLast (expf : α → α) (t : List α) (X : List (List α)) (K r : α)
    (payoff_func : List (List α) → α → τ → List (List α)) (ty : τ)
    (fit : List α → List (NA α) → β) (pred : List α → β → List α)
    (hXl : X.length = t.length) (hPl : (payoff_func X K ty).length = t.length)
    (hT : 2 ≤ t.length) :
    (lsmcRows expf t X K r payoff_func ty fit pred).getD (t.length - 2) ([], []) =
      lsmcTermRow (payoff_func X K ty) (t.length - 1) := by
  have hx : X.tail.dropLast.length = (payoff_func X K ty).tail.dropLast.length := by
    simp [List.length_dropLast, List.length_tail, hXl, hPl]
  have hd : (lsmcDisc expf r t).tail.length
      = (payoff_func X K ty).tail.dropLast.length := by
    simp [List.length_tail, List.length_dropLast, lsmcDiscLength, hPl]
  have hlen : (payoff_func X K ty).tail.dropLast.length = t.length - 2 := by
    simp only [List.length_dropLast, List.length_tail, hPl]
    omega
  rw [lsmcRows, ← hlen, lsmcLoopGetDLast _ _ _ _ _ _ hx hd]

/-- Every pre-collapse cashflow entry is a finite value: the terminal row
stores the payoff at the final date, and each interior row stores the
immediate payoff if the tentative rule fired and 0 otherwise. -/
theorem lsmcRowsCfEntry (expf : α → α) (t : List α) (X : List (List α)) (K r : α)
    (payoff_func : List (List α) → α → τ → List (List α)) (ty : τ)
    (fit : List α → List (NA α) → β) (pred : List α → β → List α) (i n N : Nat)
    (hXl : X.length = t.length) (hPl : (payoff_func X K ty).length = t.length)
    (hPw : ∀ row ∈ payoff_func X K ty, row.length = N)
    (hT : 2 ≤ t.length) (hi : i < t.length - 1) (hn : n < N) :
    ((lsmcRows expf t X K r payoff_func ty fit pred).getD i ([], [])).2.getD n none =
      (if i = t.length - 2
       then some (((payoff_func X K ty).getD (i + 1) []).getD n 0)
       else some
        (if ((lsmcRows expf t X K r payoff_func ty fit pred).getD i ([], [])).1.getD n false
         then ((payoff_func X K ty).getD (i + 1) []).getD n 0 else 0)) := by
  rcases Nat.lt_or_ge i (t.length - 2) with hcase | hcase
  · rw [if_neg (by omega)]
    rw [lsmcRowsGetDInterior expf t X K r payoff_func ty fit pred i hXl hPl hcase]
    rw [lsmcStepSnd, lsmcStepFst]
    have hplen : ((payoff_func X K ty).getD (i + 1) []).length = N :=
      hPw _ (getDMemOf _ (i + 1) [] (by omega))
    have hrlen :
        (maskedGT ((payoff_func X K ty).getD (i + 1) [])
          (itmMask ((payoff_func X K ty).getD (i + 1) []))
          (pred (maskFilter (X.getD (i + 1) [])
              (itmMask ((payoff_func X K ty).getD (i + 1) [])))
            (fit (maskFilter (X.getD (i + 1) [])
                (itmMask ((payoff_func X K ty).getD (i + 1) [])))
              ((maskFilter
                  ((lsmcRows expf t X K r payoff_func ty fit pred).getD (i + 1)
                    ([], [])).2
                  (itmMask ((payoff_func X K ty).getD (i + 1) []))).map
                (naScale ((lsmcDisc expf r t).getD (i + 1) 0)))))).length = N := by
      rw [maskedGTLength]
      simp only [itmMask, List.length_map, min_self]
      exact hplen
    rw [zipWithGetD (fun b p => some (if b then p else 0)) _
      ((payoff_func X K ty).getD (i + 1) []) n false 0 none
      (hn.trans_eq hrlen.symm) (hn.trans_eq hplen.symm)]
  · have hieq : i = t.length - 2 := by omega
    subst hieq
    rw [if_pos rfl]
    rw [lsmcRowsGetDLast expf t X K r payoff_func ty fit pred hXl hPl hT]
    have hstep : t.length - 2 + 1 = t.length - 1 := by omega
    have hplen : ((payoff_func X K ty).getD (t.length - 2 + 1) []).length = N := by
      rw [hstep]
      exact hPw _ (getDMemOf _ (t.length - 1) [] (by omega))
    rw [lsmcTermRow, hstep]
    rw [mapGetD some _ n 0 none (hn.trans_eq (by rw [hstep] at hplen; exact hplen.symm))]

/-! ## Consequences of a successful run -/

theorem lsmcChecksTrue (t : List α) (X : List (List α)) (h : lsmcChecks t X = true) :
    X ≠ [] ∧ X.length = t.length ∧ (∀ row ∈ X, row.length = (X.getD 0 []).length) := by
  cases X with
  | nil => simp [lsmcChecks] at h
  | cons q qs =>
    simp only [lsmcChecks, Bool.and_eq_true, List.all_eq_true, beq_iff_eq] at h
    refine ⟨by simp, by simpa using h.2, ?_⟩
    intro row hrow
    rcases List.mem_cons.mp hrow with hrow | hrow
    · rw [hrow]
      simp
    · exact h.1 row hrow

theorem lsmcFullGOkParts (expf : α → α) (t : List α) (X : List (List α)) (K r : α)
    (payoff_func : List (List α) → α → τ → List (List α)) (ty : τ)
    (fit : List α → List (NA α) → β) (pred : List α → β → List α)
    (sr : List (List Bool)) (cf : List (List (NA α))) (p : NA α)
    (hrun : lsmcFullG expf t X K r payoff_func ty fit pred = Except.ok (sr, cf, p)) :
    sr = lsmcRule expf t X K r payoff_func ty fit pred ∧
      cf = lsmcCFMat expf t X K r payoff_func ty fit pred ∧
      p = lsmcPrice expf t X K r payoff_func ty fit pred ∧
      2 ≤ t.length ∧ X.length = t.length ∧ X ≠ [] ∧
      (∀ row ∈ X, row.length = (X.getD 0 []).length) := by
  by_cases hc : lsmcChecks t X = true
  · rcases lsmcChecksTrue t X hc with ⟨hne, hlen, hrows⟩
    by_cases h1 : t.length = 1
    · rw [lsmcFullG, if_pos hc, if_pos (by simpa using h1)] at hrun
      simp at hrun
    · rw [lsmcFullG, if_pos hc, if_neg (by simpa using h1)] at hrun
      simp only [Except.ok.injEq, lsmcBody, Prod.mk.injEq] at hrun
      have hlen2 : 2 ≤ t.length := by
        have : 1 ≤ X.length := by
          cases X with
          | nil => exact absurd rfl hne
          | cons q qs => simp
        omega
      exact ⟨hrun.1.symm, hrun.2.1.symm, hrun.2.2.symm, hlen2, hlen, hne, hrows⟩
  · rw [lsmcFullG, if_neg hc] at hrun
    simp at hrun

/-- C3: the double cumulative-sum filter `cumsum(cumsum(s, axis=0), axis=0) == 1`
keeps, in each column of a boolean matrix, exactly the first (earliest) true
entry and nothing else: columnwise it coincides with the explicit
find-first-true scan `firstTrueOnly`. -/
theorem claim_C3 (m : List (List Bool)) (w n : Nat)
    (hrect : ∀ r ∈ m, r.length = w) (hn : n < w) :
    colD n (collapseMat m) false = firstTrueOnly (colD n m false) := by
  rw [colDCollapseMat m w n hrect hn, collapseColEqFirstTrueOnly]

theorem claim_C3_witness :
    (∀ r ∈ [[true, false], [true, true]], r.length = 2) ∧
      colD 0 (collapseMat [[true, false], [true, true]]) false =
        firstTrueOnly (colD 0 [[true, false], [true, true]] false) :=
  ⟨by decide, claim_C3 [[true, false], [true, true]] 2 0 (by decide) (by decide)⟩

/-- C2: in every run accepted by the assertions, every column (path) of the
collapsed stopping-rule matrix contains at most one true entry: the number
of true entries in each column is 0 or 1. -/
theorem claim_C2 (expf : α → α) (t : List α) (X : List (List α)) (K r : α)
    (payoff_func : List (List α) → α → τ → List (List α)) (ty : τ)
    (fit : List α → List (NA α) → β) (pred : List α → β → List α)
    (sr : List (List Bool)) (cf : List (List (NA α))) (p : NA α) (N n : Nat)
    (hrun : lsmcFullG expf t X K r payoff_func ty fit pred = Except.ok (sr, cf, p))
    (hPw : ∀ row ∈ payoff_func X K ty, row.length = N)
    (hPl : (payoff_func X K ty).length = t.length) (hn : n < N) :
    (colD n sr false).count true = 0 ∨ (colD n sr false).count true = 1 := by
  rcases lsmcFullGOkParts expf t X K r payoff_func ty fit pred sr cf p hrun with
    ⟨hsr, _, _, hT, _, _, _⟩
  rw [hsr, lsmcRuleColFirstTrue expf t X K r payoff_func ty fit pred N n hPw hPl hT hn]
  exact countTrueFirstTrueOnly _

theorem cumsumRowsFromLength (acc : List Nat) (m : List (List Nat)) :
    (cumsumRowsFrom acc m).length = m.length := by
  induction m generalizing acc with
  | nil => rfl
  | cons r rs ih => simp [cumsumRowsFrom, ih]

theorem cumsumRowsLength (m : List (List Nat)) : (cumsumRows m).length = m.length := by
  cases m with
  | nil => rfl
  | cons r rs => simp [cumsumRows, cumsumRowsFromLength]

theorem collapseMatLength (s : List (List Bool)) : (collapseMat s).length = s.length := by
  simp [collapseMat, cumsumRowsLength]

theorem collapseMatRect (s : List (List Bool)) (w : Nat)
    (hs : ∀ r ∈ s, r.length = w) : ∀ r ∈ collapseMat s, r.length = w := by
  intro r hr
  simp only [collapseMat] at hr
  rcases List.mem_map.mp hr with ⟨r0, hr0, rfl⟩
  have h0 : ∀ q ∈ s.map (fun q => q.map boolToNat), q.length = w := by
    intro q hq
    rcases List.mem_map.mp hq with ⟨q0, hq0, rfl⟩
    simp [hs q0 hq0]
  have h1 := cumsumRowsRect _ w h0
  have h2 := cumsumRowsRect _ w h1
  simp [h2 r0 hr0]

theorem colDLength {γ : Type} (n : Nat) (m : List (List γ)) (d : γ) :
    (colD n m d).length = m.length := by
  simp [colD]

/-- C4: in every accepted run, if a path is in the money at the final date
and the collapsed stopping rule never fires at any earlier date for that
path, then the collapsed terminal stopping-rule entry for that path is
true. -/
theorem claim_C4 (expf : α → α) (t : List α) (X : List (List α)) (K r : α)
    (payoff_func : List (List α) → α → τ → List (List α)) (ty : τ)
    (fit : List α → List (NA α) → β) (pred : List α → β → List α)
    (sr : List (List Bool)) (cf : List (List (NA α))) (p : NA α) (N n : Nat)
    (hrun : lsmcFullG expf t X K r payoff_func ty fit pred = Except.ok (sr, cf, p))
    (hPw : ∀ row ∈ payoff_func X K ty, row.length = N)
    (hPl : (payoff_func X K ty).length = t.length) (hn : n < N)
    (hpos : 0 < ((payoff_func X K ty).getD (t.length - 1) []).getD n 0)
    (hearly : ∀ i, i < t.length - 2 → (sr.getD i []).getD n false = false) :
    (sr.getD (t.length - 2) []).getD n false = true := by
  rcases lsmcFullGOkParts expf t X K r payoff_func ty fit pred sr cf p hrun with
    ⟨hsr, _, _, hT, hXl, _, _⟩
  set rows0 := (lsmcRows expf t X K r payoff_func ty fit pred).map Prod.fst with hrows0
  have hcount : rows0.length = t.length - 1 := by
    rw [hrows0, List.length_map,
      lsmcRowsCount expf t X K r payoff_func ty fit pred hXl hPl hT]
  set b := colD n rows0 false with hb
  have hblen : b.length = t.length - 1 := by rw [hb, colDLength, hcount]
  have hsrlen : sr.length = t.length - 1 := by
    rw [hsr, lsmcRule, collapseMatLength, ← hrows0, hcount]
  have hcol : colD n sr false = firstTrueOnly b := by
    rw [hsr,
      lsmcRuleColFirstTrue expf t X K r payoff_func ty fit pred N n hPw hPl hT hn]
  have hlastrow : rows0.getD (t.length - 2) [] =
      (lsmcTermRow (payoff_func X K ty) (t.length - 1)).1 := by
    rw [hrows0, mapGetD Prod.fst _ (t.length - 2) ([], []) []
        (by rw [lsmcRowsCount expf t X K r payoff_func ty fit pred hXl hPl hT]; omega),
      lsmcRowsGetDLast expf t X K r payoff_func ty fit pred hXl hPl hT]
  have hlast : b.getD (b.length - 1) false = true := by
    rw [hblen]
    have hb2 : t.length - 1 - 1 = t.length - 2 := by omega
    rw [hb2, hb, colDEntry rows0 (t.length - 2) n false (by rw [hcount]; omega)]
    rw [hlastrow, lsmcTermRow]
    rw [mapGetD (fun q => decide (0 < q)) _ n 0 false
      (by rw [hPw _ (getDMemOf _ (t.length - 1) [] (by rw [hPl]; omega))]; exact hn)]
    simpa using hpos
  have hearly2 : ∀ i, i + 1 < b.length → (firstTrueOnly b).getD i false = false := by
    intro i hi2
    rw [← hcol, colDEntry sr i n false (by rw [hsrlen]; omega)]
    exact hearly i (by omega)
  have hfin := firstTrueOnlyLast b hlast hearly2
  rw [← hcol] at hfin
  rw [hblen] at hfin
  have hb2 : t.length - 1 - 1 = t.length - 2 := by omega
  rw [hb2] at hfin
  rw [colDEntry sr (t.length - 2) n false (by rw [hsrlen]; omega)] at hfin
  exact hfin

/-- Shared helper: every final cashflow entry of an accepted run is `some`
of the payoff where the collapsed rule fires and `some 0` elsewhere. -/
theorem lsmcCfFinalEntry (expf : α → α) (t : List α) (X : List (List α)) (K r : α)
    (payoff_func : List (List α) → α → τ → List (List α)) (ty : τ)
    (fit : List α → List (NA α) → β) (pred : List α → β → List α)
    (sr : List (List Bool)) (cf : List (List (NA α))) (p : NA α) (N i n : Nat)
    (hrun : lsmcFullG expf t X K r payoff_func ty fit pred = Except.ok (sr, cf, p))
    (hPw : ∀ row ∈ payoff_func X K ty, row.length = N)
    (hPl : (payoff_func X K ty).length = t.length)
    (hi : i < t.length - 1) (hn : n < N) :
    (cf.getD i []).getD n none =
      some (if (sr.getD i []).getD n false
        then ((payoff_func X K ty).getD (i + 1) []).getD n 0 else 0) := by
  rcases lsmcFullGOkParts expf t X K r payoff_func ty fit pred sr cf p hrun with
    ⟨hsr, hcf, _, hT, hXl, _, _⟩
  have hrowsN := lsmcRowsRect expf t X K r payoff_func ty fit pred N hPw hPl hT
  have hcount : (lsmcRows expf t X K r payoff_func ty fit pred).length = t.length - 1 :=
    lsmcRowsCount expf t X K r payoff_func ty fit pred hXl hPl hT
  have hrect0 : ∀ row ∈ (lsmcRows expf t X K r payoff_func ty fit pred).map Prod.fst,
      row.length = N := by
    intro row hrow
    rcases List.mem_map.mp hrow with ⟨pr2, hpr2, rfl⟩
    exact (hrowsN pr2 hpr2).1
  have hsrlen : sr.length = t.length - 1 := by
    rw [hsr, lsmcRule, collapseMatLength, List.length_map, hcount]
  have hsrrect : ∀ row ∈ sr, row.length = N := by
    rw [hsr, lsmcRule]
    exact collapseMatRect _ N hrect0
  have hcfpreLen : ((lsmcRows expf t X K r payoff_func ty fit pred).map Prod.snd).length
      = t.length - 1 := by rw [List.length_map, hcount]
  have hcfrow : cf.getD i [] =
      List.zipWith (fun b x => Option.map (fun v => if b then v else 0) x)
        (sr.getD i [])
        (((lsmcRows expf t X K r payoff_func ty fit pred).map Prod.snd).getD i []) := by
    rw [hcf, lsmcCFMat, ← hsr]
    exact zipWithGetD _ _ _ i [] [] [] (by rw [hsrlen]; omega) (by rw [hcfpreLen]; omega)
  have hsrRowLen : (sr.getD i []).length = N :=
    hsrrect _ (getDMemOf sr i [] (by rw [hsrlen]; omega))
  have hcfpreRow : ((lsmcRows expf t X K r payoff_func ty fit pred).map Prod.snd).getD i []
      = ((lsmcRows expf t X K r payoff_func ty fit pred).getD i ([], [])).2 :=
    mapGetD Prod.snd _ i ([], []) [] (by rw [hcount]; omega)
  have hcfpreRowLen :
      ((lsmcRows expf t X K r payoff_func ty fit pred).getD i ([], [])).2.length = N :=
    (hrowsN _ (getDMemOf _ i ([], []) (by rw [hcount]; omega))).2
  rw [hcfrow, hcfpreRow]
  rw [zipWithGetD _ _ _ n false none none (by rw [hsrRowLen]; omega)
    (by rw [hcfpreRowLen]; omega)]
  have hpre := lsmcRowsCfEntry expf t X K r payoff_func ty fit pred i n N
    hXl hPl hPw hT hi hn
  cases hfire : (sr.getD i []).getD n false with
  | false =>
    by_cases hieq : i = t.length - 2
    · rw [if_pos hieq] at hpre
      rw [hpre]
      simp
    · rw [if_neg hieq] at hpre
      rw [hpre]
      simp
  | true =>
    have hcol : colD n sr false =
        firstTrueOnly (colD n ((lsmcRows expf t X K r payoff_func ty fit pred).map
          Prod.fst) false) := by
      rw [hsr,
        lsmcRuleColFirstTrue expf t X K r payoff_func ty fit pred N n hPw hPl hT hn]
    have hsrE : (colD n sr false).getD i false = true := by
      rw [colDEntry sr i n false (by rw [hsrlen]; omega)]
      exact hfire
    have hpreRule :
        ((lsmcRows expf t X K r payoff_func ty fit pred).getD i ([], [])).1.getD n false
          = true := by
      have himp := firstTrueOnlyGetDImp _ i (hcol ▸ hsrE)
      rw [colDEntry _ i n false (by rw [List.length_map, hcount]; omega)] at himp
      rw [mapGetD Prod.fst _ i ([], []) [] (by rw [hcount]; omega)] at himp
      exact himp
    by_cases hieq : i = t.length - 2
    · rw [if_pos hieq] at hpre
      rw [hpre]
      simp
    · rw [if_neg hieq] at hpre
      rw [hpre, hpreRule]
      simp

/-- C10: although the cashflow matrix is initialised entirely to NaN, in
every run accepted by the assertions with a time grid of length at least 2
and a well-shaped payoff matrix every row is overwritten before the final
collapse, so the final cashflow matrix contains no NaN: each entry equals
the payoff at the corresponding exercise date where the collapsed stopping
rule is true, and 0 elsewhere. -/
theorem claim_C10 (expf : α → α) (t : List α) (X : List (List α)) (K r : α)
    (payoff_func : List (List α) → α → τ → List (List α)) (ty : τ)
    (fit : List α → List (NA α) → β) (pred : List α → β → List α)
    (sr : List (List Bool)) (cf : List (List (NA α))) (p : NA α) (N i n : Nat)
    (hrun : lsmcFullG expf t X K r payoff_func ty fit pred = Except.ok (sr, cf, p))
    (hPw : ∀ row ∈ payoff_func X K ty, row.length = N)
    (hPl : (payoff_func X K ty).length = t.length)
    (hi : i < t.length - 1) (hn : n < N) :
    (cf.getD i []).getD n none =
      some (if (sr.getD i []).getD n false
        then ((payoff_func X K ty).getD (i + 1) []).getD n 0 else 0) :=
  lsmcCfFinalEntry expf t X K r payoff_func ty fit pred sr cf p N i n
    hrun hPw hPl hi hn

theorem cumprodFromLength (acc : α) (l : List α) :
    (cumprodFrom acc l).length = l.length := by
  induction l generalizing acc with
  | nil => rfl
  | cons d ds ih => simp [cumprodFrom, ih]

theorem cumprodLength (l : List α) : (cumprod l).length = l.length := by
  cases l with
  | nil => rfl
  | cons d ds => simp [cumprod, cumprodFromLength]

/-- Shared helper: if the payoff of path `n` is zero at every date, an
accepted run never stops path `n` and its final cashflow column is all
`some 0`. -/
theorem lsmcZeroColumn (expf : α → α) (t : List α) (X : List (List α)) (K r : α)
    (payoff_func : List (List α) → α → τ → List (List α)) (ty : τ)
    (fit : List α → List (NA α) → β) (pred : List α → β → List α)
    (sr : List (List Bool)) (cf : List (List (NA α))) (p : NA α) (N n : Nat)
    (hrun : lsmcFullG expf t X K r payoff_func ty fit pred = Except.ok (sr, cf, p))
    (hPw : ∀ row ∈ payoff_func X K ty, row.length = N)
    (hPl : (payoff_func X K ty).length = t.length) (hn : n < N)
    (hz : ∀ j, j < t.length → ((payoff_func X K ty).getD j []).getD n 0 = 0) :
    (∀ i, i < t.length - 1 → (sr.getD i []).getD n false = false) ∧
      (∀ i, i < t.length - 1 → (cf.getD i []).getD n none = some 0) := by
  rcases lsmcFullGOkParts expf t X K r payoff_func ty fit pred sr cf p hrun with
    ⟨hsr, hcf, _, hT, hXl, _, _⟩
  have hcount : (lsmcRows expf t X K r payoff_func ty fit pred).length = t.length - 1 :=
    lsmcRowsCount expf t X K r payoff_func ty fit pred hXl hPl hT
  -- pre-collapse rule entries of this column are all false
  have hpre : ∀ i, i < t.length - 1 →
      ((lsmcRows expf t X K r payoff_func ty fit pred).getD i ([], [])).1.getD n false
        = false := by
    intro i hi
    have hplen : ((payoff_func X K ty).getD (i + 1) []).length = N :=
      hPw _ (getDMemOf _ (i + 1) [] (by rw [hPl]; omega))
    by_cases hieq : i = t.length - 2
    · subst hieq
      rw [lsmcRowsGetDLast expf t X K r payoff_func ty fit pred hXl hPl hT, lsmcTermRow]
      have hstep : t.length - 2 + 1 = t.length - 1 := by omega
      rw [mapGetD (fun q => decide (0 < q)) _ n 0 false
        (by rw [hPw _ (getDMemOf _ (t.length - 1) [] (by rw [hPl]; omega))]; exact hn)]
      have := hz (t.length - 1) (by omega)
      rw [this]
      simp
    · have hint : i < t.length - 2 := by omega
      rw [lsmcRowsGetDInterior expf t X K r payoff_func ty fit pred i hXl hPl hint,
        lsmcStepFst]
      refine maskedGTGetDFalse _ _ _ n ?_
      rw [itmMask, mapGetD (fun q => decide (0 < q)) _ n 0 false
        (by rw [hplen]; exact hn)]
      rw [hz (i + 1) (by omega)]
      simp
  have hsrlen : sr.length = t.length - 1 := by
    rw [hsr, lsmcRule, collapseMatLength, List.length_map, hcount]
  -- the collapsed rule entries are then also all false
  have hsrE : ∀ i, i < t.length - 1 → (sr.getD i []).getD n false = false := by
    intro i hi
    cases hfire : (sr.getD i []).getD n false with
    | false => rfl
    | true =>
      exfalso
      have hcol : colD n sr false =
          firstTrueOnly (colD n ((lsmcRows expf t X K r payoff_func ty fit pred).map
            Prod.fst) false) := by
        rw [hsr,
          lsmcRuleColFirstTrue expf t X K r payoff_func ty fit pred N n hPw hPl hT hn]
      have hsrE2 : (colD n sr false).getD i false = true := by
        rw [colDEntry sr i n false (by rw [hsrlen]; omega)]
        exact hfire
      have himp := firstTrueOnlyGetDImp _ i (hcol ▸ hsrE2)
      rw [colDEntry _ i n false (by rw [List.length_map, hcount]; omega)] at himp
      rw [mapGetD Prod.fst _ i ([], []) [] (by rw [hcount]; omega)] at himp
      rw [hpre i hi] at himp
      exact Bool.false_ne_true himp
  refine ⟨hsrE, ?_⟩
  intro i hi
  have hfin := lsmcCfFinalEntry expf t X K r payoff_func ty fit pred sr cf p N i n
    hrun hPw hPl hi hn
  rw [hfin, hsrE i hi, hz (i + 1) (by omega)]
  simp

/-- Shared helper: shape of the final cashflow matrix. -/
theorem lsmcCfShape (expf : α → α) (t : List α) (X : List (List α)) (K r : α)
    (payoff_func : List (List α) → α → τ → List (List α)) (ty : τ)
    (fit : List α → List (NA α) → β) (pred : List α → β → List α)
    (sr : List (List Bool)) (cf : List (List (NA α))) (p : NA α) (N : Nat)
    (hrun : lsmcFullG expf t X K r payoff_func ty fit pred = Except.ok (sr, cf, p))
    (hPw : ∀ row ∈ payoff_func X K ty, row.length = N)
    (hPl : (payoff_func X K ty).length = t.length) :
    cf.length = t.length - 1 ∧ (∀ row ∈ cf, row.length = N) := by
  rcases lsmcFullGOkParts expf t X K r payoff_func ty fit pred sr cf p hrun with
    ⟨hsr, hcf, _, hT, hXl, _, _⟩
  have hrowsN := lsmcRowsRect expf t X K r payoff_func ty fit pred N hPw hPl hT
  have hcount : (lsmcRows expf t X K r payoff_func ty fit pred).length = t.length - 1 :=
    lsmcRowsCount expf t X K r payoff_func ty fit pred hXl hPl hT
  have hrect0 : ∀ row ∈ (lsmcRows expf t X K r payoff_func ty fit pred).map Prod.fst,
      row.length = N := by
    intro row hrow
    rcases List.mem_map.mp hrow with ⟨pr2, hpr2, rfl⟩
    exact (hrowsN pr2 hpr2).1
  have hsrlen : sr.length = t.length - 1 := by
    rw [hsr, lsmcRule, collapseMatLength, List.length_map, hcount]
  have hcflen : cf.length = t.length - 1 := by
    rw [hcf, lsmcCFMat, List.length_zipWith, ← hsr, hsrlen, List.length_map, hcount]
    omega
  refine ⟨hcflen, ?_⟩
  intro row hrow
  rcases List.mem_iff_getElem.mp hrow with ⟨i, hilen, rfl⟩
  have hi : i < t.length - 1 := by rw [hcflen] at hilen; exact hilen
  rw [← List.getD_eq_getElem cf [] hilen]
  have hcfrow : cf.getD i [] =
      List.zipWith (fun b x => Option.map (fun v => if b then v else 0) x)
        (sr.getD i [])
        (((lsmcRows expf t X K r payoff_func ty fit pred).map Prod.snd).getD i []) := by
    rw [hcf, lsmcCFMat, ← hsr]
    exact zipWithGetD _ _ _ i [] [] [] (by rw [hsrlen]; omega)
      (by rw [List.length_map, hcount]; omega)
  have hsrRowLen : (sr.getD i []).length = N := by
    have hsrrect : ∀ row2 ∈ sr, row2.length = N := by
      rw [hsr, lsmcRule]
      exact collapseMatRect _ N hrect0
    exact hsrrect _ (getDMemOf sr i [] (by rw [hsrlen]; omega))
  have hcfpreRow : ((lsmcRows expf t X K r payoff_func ty fit pred).map Prod.snd).getD i []
      = ((lsmcRows expf t X K r payoff_func ty fit pred).getD i ([], [])).2 :=
    mapGetD Prod.snd _ i ([], []) [] (by rw [hcount]; omega)
  have hcfpreRowLen :
      ((lsmcRows expf t X K r payoff_func ty fit pred).getD i ([], [])).2.length = N :=
    (hrowsN _ (getDMemOf _ i ([], []) (by rw [hcount]; omega))).2
  rw [hcfrow, hcfpreRow, List.length_zipWith, hsrRowLen, hcfpreRowLen]
  omega

/-- C8 (amended): in every accepted run with a well-shaped payoff matrix,
a path whose payoff is 0 at every date is never stopped, has an all-zero
final cashflow column, and contributes exactly 0 to the price average;
and when there is at least one path and every path is out of the money at
every date, the returned price is exactly `some 0` and the stopping-rule
matrix is entirely false.  (The original claim fails for zero paths: the
mean of an empty array is NaN, see the counterexample.) -/
theorem claim_C8 (expf : α → α) (t : List α) (X : List (List α)) (K r : α)
    (payoff_func : List (List α) → α → τ → List (List α)) (ty : τ)
    (fit : List α → List (NA α) → β) (pred : List α → β → List α)
    (sr : List (List Bool)) (cf : List (List (NA α))) (p : NA α) (N : Nat)
    (hrun : lsmcFullG expf t X K r payoff_func ty fit pred = Except.ok (sr, cf, p))
    (hPw : ∀ row ∈ payoff_func X K ty, row.length = N)
    (hPl : (payoff_func X K ty).length = t.length) :
    (∀ n, n < N →
      (∀ j, j < t.length → ((payoff_func X K ty).getD j []).getD n 0 = 0) →
      (∀ i, i < t.length - 1 → (sr.getD i []).getD n false = false) ∧
      (∀ i, i < t.length - 1 → (cf.getD i []).getD n none = some 0) ∧
      (pathwiseCF cf (cumprod (lsmcDisc expf r t))).getD n none = some 0) ∧
    (1 ≤ N →
      (∀ j, j < t.length → ∀ n, n < N →
        ((payoff_func X K ty).getD j []).getD n 0 = 0) →
      p = some 0 ∧
      (∀ i, i < t.length - 1 → ∀ n, n < N → (sr.getD i []).getD n false = false)) := by
  rcases lsmcFullGOkParts expf t X K r payoff_func ty fit pred sr cf p hrun with
    ⟨hsr, hcf, hp, hT, hXl, _, _⟩
  rcases lsmcCfShape expf t X K r payoff_func ty fit pred sr cf p N hrun hPw hPl with
    ⟨hcflen, hcfrect⟩
  have hne : cf ≠ [] := by
    intro h0
    rw [h0] at hcflen
    simp at hcflen
    omega
  have hcdlen : cf.length = (cumprod (lsmcDisc expf r t)).length := by
    rw [hcflen, cumprodLength, lsmcDiscLength]
  have hpath : ∀ n, n < N →
      (∀ j, j < t.length → ((payoff_func X K ty).getD j []).getD n 0 = 0) →
      (∀ i, i < t.length - 1 → (sr.getD i []).getD n false = false) ∧
      (∀ i, i < t.length - 1 → (cf.getD i []).getD n none = some 0) ∧
      (pathwiseCF cf (cumprod (lsmcDisc expf r t))).getD n none = some 0 := by
    intro n hn hz
    rcases lsmcZeroColumn expf t X K r payoff_func ty fit pred sr cf p N n
      hrun hPw hPl hn hz with ⟨ha, hb⟩
    refine ⟨ha, hb, ?_⟩
    refine pathwiseCFZero cf _ N n hne hcdlen hn ?_
    intro row hrow
    rcases List.mem_iff_getElem.mp hrow with ⟨i, hilen, rfl⟩
    have hi : i < t.length - 1 := by rw [hcflen] at hilen; exact hilen
    rw [← List.getD_eq_getElem cf [] hilen]
    exact ⟨hcfrect _ (getDMemOf cf i [] hilen), hb i hi⟩
  refine ⟨hpath, ?_⟩
  intro hN hzall
  have hrule : ∀ i, i < t.length - 1 → ∀ n, n < N →
      (sr.getD i []).getD n false = false := by
    intro i hi n hn
    exact (hpath n hn (fun j hj => hzall j hj n hn)).1 i hi
  refine ⟨?_, hrule⟩
  have hpwlen : (pathwiseCF cf (cumprod (lsmcDisc expf r t))).length = N :=
    pathwiseCFLength cf _ N hne hcdlen hcfrect
  have hallz : ∀ x ∈ pathwiseCF cf (cumprod (lsmcDisc expf r t)), x = some 0 := by
    refine memOfAllGetD _ none (some 0) ?_
    intro m hm
    have hmN : m < N := by rw [hpwlen] at hm; exact hm
    exact (hpath m hmN (fun j hj => hzall j hj m hmN)).2.2
  have hsum : naSum (pathwiseCF cf (cumprod (lsmcDisc expf r t))) = some 0 :=
    naSumAllZero _ hallz
  rw [hp, lsmcPrice, ← hcf, naMean, if_neg (by rw [hpwlen]; omega), hsum]
  simp

/-- C7: at every interior date (row `i` of the loop output, exercise date
`t_{i+1}`), for every in-the-money path, the tentative stopping decision
recorded by the backward loop is true exactly when the immediate payoff
strictly exceeds the predicted continuation value for that path; in
particular a tie (payoff equal to the prediction) is recorded as false
(continuation).  The estimator is assumed to return one prediction per
in-the-money regressor. -/
theorem claim_C7 (expf : α → α) (t : List α) (X : List (List α)) (K r : α)
    (payoff_func : List (List α) → α → τ → List (List α)) (ty : τ)
    (fit : List α → List (NA α) → β) (pred : List α → β → List α)
    (sr : List (List Bool)) (cf : List (List (NA α))) (p : NA α) (N i n : Nat)
    (pr xr : List α) (mask : List Bool) (xs : List α) (ys : List (NA α)) (ev : List α)
    (hrun : lsmcFullG expf t X K r payoff_func ty fit pred = Except.ok (sr, cf, p))
    (hPw : ∀ row ∈ payoff_func X K ty, row.length = N)
    (hPl : (payoff_func X K ty).length = t.length)
    (hNX : (X.getD 0 []).length = N)
    (hi : i < t.length - 2) (hn : n < N)
    (hpr : pr = (payoff_func X K ty).getD (i + 1) [])
    (hxr : xr = X.getD (i + 1) [])
    (hmask : mask = itmMask pr)
    (hxs : xs = maskFilter xr mask)
    (hys : ys = (maskFilter
        ((lsmcRows expf t X K r payoff_func ty fit pred).getD (i + 1) ([], [])).2
        mask).map (naScale ((lsmcDisc expf r t).getD (i + 1) 0)))
    (hev : ev = pred xs (fit xs ys))
    (hitm : 0 < pr.getD n 0)
    (hevlen : ev.length = xs.length) :
    ((lsmcRows expf t X K r payoff_func ty fit pred).getD i ([], [])).1.getD n false
        = decide (ev.getD ((mask.take n).countP (fun b => b)) 0 < pr.getD n 0) ∧
      (pr.getD n 0 = ev.getD ((mask.take n).countP (fun b => b)) 0 →
        ((lsmcRows expf t X K r payoff_func ty fit pred).getD i ([], [])).1.getD n false
          = false) := by
  rcases lsmcFullGOkParts expf t X K r payoff_func ty fit pred sr cf p hrun with
    ⟨_, _, _, hT, hXl, hXne, hXrows⟩
  have hplen : pr.length = N := by
    rw [hpr]
    exact hPw _ (getDMemOf _ (i + 1) [] (by rw [hPl]; omega))
  have hxrlen : xr.length = N := by
    rw [hxr, ← hNX]
    exact hXrows _ (getDMemOf _ (i + 1) [] (by rw [hXl]; omega))
  have hmasklen : mask.length = N := by
    rw [hmask, itmMask, List.length_map, hplen]
  have hmaskn : mask.getD n false = true := by
    rw [hmask, itmMask, mapGetD (fun q => decide (0 < q)) pr n 0 false
      (by rw [hplen]; exact hn)]
    simpa using hitm
  have hxslen : xs.length = mask.countP (fun b => b) := by
    rw [hxs]
    exact maskFilterLength xr mask (by rw [hxrlen, hmasklen])
  have hes : mask.countP (fun b => b) ≤ ev.length := by
    rw [hevlen, hxslen]
  have hmain :
      ((lsmcRows expf t X K r payoff_func ty fit pred).getD i ([], [])).1.getD n false
        = decide (ev.getD ((mask.take n).countP (fun b => b)) 0 < pr.getD n 0) := by
    rw [lsmcRowsGetDInterior expf t X K r payoff_func ty fit pred i hXl hPl hi,
      lsmcStepFst]
    rw [← hpr, ← hxr, ← hmask, ← hxs, ← hys, ← hev]
    exact maskedGTGetDTrue pr mask ev n (by rw [hplen]; exact hn) hmaskn hes
  refine ⟨hmain, ?_⟩
  intro htie
  rw [hmain, ← htie]
  simp

/-- Concrete evaluation of the two-date, three-path put scenario for every
rate and every estimator. -/
theorem scenarioThreePaths (r : ℝ) (fit : List ℝ → List (NA ℝ) → β)
    (pred : List ℝ → β → List ℝ) :
    lsmcFullG Real.exp [0, 1] [[40, 40, 40], [30, 45, 38]] 40 r european_payoff
        OptionType.put fit pred =
      Except.ok ([[true, false, true]], [[some 10, some 0, some 2]],
        some (Real.exp (-r) * ((10 + 0 + 2) / 3))) := by
  have hpay : european_payoff [[40, 40, 40], [30, 45, 38]] (40 : ℝ) OptionType.put
      = [[0, 0, 0], [10, 0, 2]] := by
    simp only [european_payoff, List.map]
    norm_num
  have hrows : lsmcRows Real.exp [0, 1] [[40, 40, 40], [30, 45, 38]] 40 r
      european_payoff OptionType.put fit pred
      = [([true, false, true], [some 10, some 0, some 2])] := by
    rw [lsmcRows, hpay]
    norm_num [lsmcTermRow, lsmcLoop]
  have hrule : lsmcRule Real.exp [0, 1] [[40, 40, 40], [30, 45, 38]] 40 r
      european_payoff OptionType.put fit pred = [[true, false, true]] := by
    rw [lsmcRule, hrows]
    rfl
  have hcf : lsmcCFMat Real.exp [0, 1] [[40, 40, 40], [30, 45, 38]] 40 r
      european_payoff OptionType.put fit pred = [[some 10, some 0, some 2]] := by
    rw [lsmcCFMat, hrule, hrows]
    norm_num
  have hdisc : lsmcDisc Real.exp r [0, 1] = [Real.exp (-r)] := by
    norm_num [lsmcDisc, npDiff]
  have hprice : lsmcPrice Real.exp [0, 1] [[40, 40, 40], [30, 45, 38]] 40 r
      european_payoff OptionType.put fit pred
      = some (Real.exp (-r) * ((10 + 0 + 2) / 3)) := by
    rw [lsmcPrice, hcf, hdisc]
    norm_num [pathwiseCF, cumprod, cumprodFrom, naScale, naSum, naAdd, naMean]
    ring_nf
  rw [lsmcFullG, if_pos (by rfl), if_neg (by simp), lsmcBody, hrule, hcf, hprice]

/-- C1: on the concrete scenario with t = [0, 1], three paths, a put with
strike 40 and price rows [[40,40,40],[30,45,38]] (payoff row 1 = [10,0,2]),
for every rate r and every fit/predict estimator (which is never invoked,
since there are no interior dates, as witnessed by the result not depending
on it), the engine returns stopping rule [[true,false,true]], cashflow
[[10,0,2]] and price exp(-r)·(10+0+2)/3. -/
theorem claim_C1 (r : ℝ) (fit : List ℝ → List (NA ℝ) → β) (pred : List ℝ → β → List ℝ) :
    lsmcFull [0, 1] [[40, 40, 40], [30, 45, 38]] 40 r european_payoff OptionType.put fit pred =
      Except.ok ([[true, false, true]], [[some 10, some 0, some 2]],
        some (Real.exp (-r) * ((10 + 0 + 2) / 3))) := by
  rw [lsmcFull]
  exact scenarioThreePaths r fit pred

/-- C5 (amended): the engine rejects with the shape error exactly the
inputs that violate the three shape assertions; an accepted time grid of
length one instead fails later with an index error (the cashflow row
`M - 1 = -1` of an empty matrix), and neither strict monotonicity of the
time grid nor its minimum length is validated (see the counterexample). -/
theorem claim_C5 (expf : α → α) (t : List α) (X : List (List α)) (K r : α)
    (payoff_func : List (List α) → α → τ → List (List α)) (ty : τ)
    (fit : List α → List (NA α) → β) (pred : List α → β → List α) :
    (lsmcChecks t X = false →
      lsmcG expf t X K r payoff_func ty fit pred = Except.error LsmcError.shape) ∧
    (lsmcChecks t X = true → t.length = 1 →
      lsmcG expf t X K r payoff_func ty fit pred = Except.error LsmcError.index) := by
  constructor
  · intro h
    rw [lsmcG, lsmcFullG, if_neg (by simp [h])]
    rfl
  · intro hc h1
    rw [lsmcG, lsmcFullG, if_pos hc, if_pos (by simp [h1])]
    rfl

/-- C5 counterexample: the call with the non-monotone (and hence invalid
per the spec preconditions) time grid [0, 0] is accepted and completes
normally instead of failing with a shape error, and the length-one grid
[0] fails with the index error, not the shape error. -/
theorem claim_C5_counterexample :
    (lsmc [0, 0] [[40], [30]] 40 0 european_payoff OptionType.put
        (fun _ _ => (0 : ℝ)) (fun xs _ => xs)).isOk = true ∧
    lsmc [0] [[40]] 40 0 european_payoff OptionType.put
        (fun _ _ => (0 : ℝ)) (fun xs _ => xs) = Except.error LsmcError.index ∧
    LsmcError.index ≠ LsmcError.shape := by
  refine ⟨rfl, rfl, by decide⟩

/-- C9: the engine is a deterministic pure function: two invocations with
identical time grid, price matrix, strike, rate, payoff evaluator, option
type and fit/predict estimators produce identical stopping-rule matrices,
cashflow matrices and prices. -/
theorem claim_C9 (expf1 expf2 : α → α) (t1 t2 : List α) (X1 X2 : List (List α))
    (K1 K2 r1 r2 : α)
    (pf1 pf2 : List (List α) → α → τ → List (List α)) (ty1 ty2 : τ)
    (fit1 fit2 : List α → List (NA α) → β) (pred1 pred2 : List α → β → List α)
    (he : expf1 = expf2) (ht : t1 = t2) (hX : X1 = X2) (hK : K1 = K2) (hr : r1 = r2)
    (hpf : pf1 = pf2) (hty : ty1 = ty2) (hfit : fit1 = fit2) (hpred : pred1 = pred2) :
    lsmcFullG expf1 t1 X1 K1 r1 pf1 ty1 fit1 pred1
        = lsmcFullG expf2 t2 X2 K2 r2 pf2 ty2 fit2 pred2 ∧
      lsmcG expf1 t1 X1 K1 r1 pf1 ty1 fit1 pred1
        = lsmcG expf2 t2 X2 K2 r2 pf2 ty2 fit2 pred2 := by
  subst he ht hX hK hr hpf hty hfit hpred
  exact ⟨rfl, rfl⟩

/-- C6 (amended): the source function returns only the scalar price: on a
successful run the returned value is exactly the price component, and that
price is the mean of the pathwise discounted cashflows computed from the
(internal, not returned) final cashflow matrix. -/
theorem claim_C6 (expf : α → α) (t : List α) (X : List (List α)) (K r : α)
    (payoff_func : List (List α) → α → τ → List (List α)) (ty : τ)
    (fit : List α → List (NA α) → β) (pred : List α → β → List α)
    (sr : List (List Bool)) (cf : List (List (NA α))) (p : NA α)
    (hrun : lsmcFullG expf t X K r payoff_func ty fit pred = Except.ok (sr, cf, p)) :
    lsmcG expf t X K r payoff_func ty fit pred = Except.ok p ∧
      p = naMean (pathwiseCF cf (cumprod (lsmcDisc expf r t))) := by
  rcases lsmcFullGOkParts expf t X K r payoff_func ty fit pred sr cf p hrun with
    ⟨_, hcf, hp, _, _, _, _⟩
  constructor
  · rw [lsmcG, hrun]
    rfl
  · rw [hp, lsmcPrice, ← hcf]


/-- Concrete evaluation of a two-date, one-path in-the-money put run. -/
theorem scenarioOnePath (fit : List ℝ → List (NA ℝ) → β) (pred : List ℝ → β → List ℝ) :
    lsmcFullG Real.exp [0, 1] [[40], [30]] 40 0 european_payoff OptionType.put fit pred
      = Except.ok ([[true]], [[some 10]], some 10) := by
  have hpay : european_payoff [[40], [30]] (40 : ℝ) OptionType.put = [[0], [10]] := by
    simp only [european_payoff, List.map]
    norm_num
  have hrows : lsmcRows Real.exp [0, 1] [[40], [30]] 40 0 european_payoff
      OptionType.put fit pred = [([true], [some 10])] := by
    rw [lsmcRows, hpay]
    norm_num [lsmcTermRow, lsmcLoop]
  have hrule : lsmcRule Real.exp [0, 1] [[40], [30]] 40 0 european_payoff
      OptionType.put fit pred = [[true]] := by
    rw [lsmcRule, hrows]
    rfl
  have hcf : lsmcCFMat Real.exp [0, 1] [[40], [30]] 40 0 european_payoff
      OptionType.put fit pred = [[some 10]] := by
    rw [lsmcCFMat, hrule, hrows]
    norm_num
  have hdisc : lsmcDisc Real.exp (0 : ℝ) [0, 1] = [1] := by
    norm_num [lsmcDisc, npDiff, Real.exp_zero]
  have hprice : lsmcPrice Real.exp [0, 1] [[40], [30]] 40 0 european_payoff
      OptionType.put fit pred = some 10 := by
    rw [lsmcPrice, hcf, hdisc]
    norm_num [pathwiseCF, cumprod, cumprodFrom, naScale, naSum, naAdd, naMean]
  rw [lsmcFullG, if_pos (by rfl), if_neg (by simp), lsmcBody, hrule, hcf, hprice]

/-- Concrete evaluation of a two-date, two-path in-the-money put run with
the same price as the one-path run but different matrices. -/
theorem scenarioTwoPaths (fit : List ℝ → List (NA ℝ) → β) (pred : List ℝ → β → List ℝ) :
    lsmcFullG Real.exp [0, 1] [[40, 40], [30, 30]] 40 0 european_payoff OptionType.put
        fit pred
      = Except.ok ([[true, true]], [[some 10, some 10]], some 10) := by
  have hpay : european_payoff [[40, 40], [30, 30]] (40 : ℝ) OptionType.put
      = [[0, 0], [10, 10]] := by
    simp only [european_payoff, List.map]
    norm_num
  have hrows : lsmcRows Real.exp [0, 1] [[40, 40], [30, 30]] 40 0 european_payoff
      OptionType.put fit pred = [([true, true], [some 10, some 10])] := by
    rw [lsmcRows, hpay]
    norm_num [lsmcTermRow, lsmcLoop]
  have hrule : lsmcRule Real.exp [0, 1] [[40, 40], [30, 30]] 40 0 european_payoff
      OptionType.put fit pred = [[true, true]] := by
    rw [lsmcRule, hrows]
    rfl
  have hcf : lsmcCFMat Real.exp [0, 1] [[40, 40], [30, 30]] 40 0 european_payoff
      OptionType.put fit pred = [[some 10, some 10]] := by
    rw [lsmcCFMat, hrule, hrows]
    norm_num
  have hdisc : lsmcDisc Real.exp (0 : ℝ) [0, 1] = [1] := by
    norm_num [lsmcDisc, npDiff, Real.exp_zero]
  have hprice : lsmcPrice Real.exp [0, 1] [[40, 40], [30, 30]] 40 0 european_payoff
      OptionType.put fit pred = some 10 := by
    rw [lsmcPrice, hcf, hdisc]
    norm_num [pathwiseCF, cumprod, cumprodFrom, naScale, naSum, naAdd, naMean]
  rw [lsmcFullG, if_pos (by rfl), if_neg (by simp), lsmcBody, hrule, hcf, hprice]

/-- Concrete evaluation of a two-date, one-path run that is out of the
money at every date. -/
theorem scenarioOutOfMoney (fit : List ℝ → List (NA ℝ) → β)
    (pred : List ℝ → β → List ℝ) :
    lsmcFullG Real.exp [0, 1] [[50], [60]] 40 0 european_payoff OptionType.put fit pred
      = Except.ok ([[false]], [[some 0]], some 0) := by
  have hpay : european_payoff [[50], [60]] (40 : ℝ) OptionType.put = [[0], [0]] := by
    simp only [european_payoff, List.map]
    norm_num
  have hrows : lsmcRows Real.exp [0, 1] [[50], [60]] 40 0 european_payoff
      OptionType.put fit pred = [([false], [some 0])] := by
    rw [lsmcRows, hpay]
    norm_num [lsmcTermRow, lsmcLoop]
  have hrule : lsmcRule Real.exp [0, 1] [[50], [60]] 40 0 european_payoff
      OptionType.put fit pred = [[false]] := by
    rw [lsmcRule, hrows]
    rfl
  have hcf : lsmcCFMat Real.exp [0, 1] [[50], [60]] 40 0 european_payoff
      OptionType.put fit pred = [[some 0]] := by
    rw [lsmcCFMat, hrule, hrows]
    norm_num
  have hdisc : lsmcDisc Real.exp (0 : ℝ) [0, 1] = [1] := by
    norm_num [lsmcDisc, npDiff, Real.exp_zero]
  have hprice : lsmcPrice Real.exp [0, 1] [[50], [60]] 40 0 european_payoff
      OptionType.put fit pred = some 0 := by
    rw [lsmcPrice, hcf, hdisc]
    norm_num [pathwiseCF, cumprod, cumprodFrom, naScale, naSum, naAdd, naMean]
  rw [lsmcFullG, if_pos (by rfl), if_neg (by simp), lsmcBody, hrule, hcf, hprice]

/-- The discount vector of the three-date scenario at rate 0. -/
theorem scenarioThreeDatesDisc : lsmcDisc Real.exp (0 : ℝ) [0, 1, 2] = [1, 1] := by
  norm_num [lsmcDisc, npDiff, Real.exp_zero]

/-- The pre-collapse rows of the three-date scenario: the interior date
exercises path 0 (payoff 5 beats the predicted continuation value 0). -/
theorem scenarioThreeDatesRows :
    lsmcRows Real.exp [0, 1, 2] [[40, 40], [35, 41], [30, 45]] 40 0 european_payoff
        OptionType.put (fun _ _ => (0 : ℝ)) (fun xs _ => xs.map (fun _ => 0))
      = [([true, false], [some 5, some 0]), ([true, false], [some 10, some 0])] := by
  have hpay : european_payoff [[40, 40], [35, 41], [30, 45]] (40 : ℝ) OptionType.put
      = [[0, 0], [5, 0], [10, 0]] := by
    simp only [european_payoff, List.map]
    norm_num
  rw [lsmcRows, hpay, scenarioThreeDatesDisc]
  norm_num [lsmcTermRow, lsmcLoop, lsmcStep, itmMask, maskFilter, maskedGT, naScale]

/-- Concrete evaluation of the full three-date scenario. -/
theorem scenarioThreeDates :
    lsmcFullG Real.exp [0, 1, 2] [[40, 40], [35, 41], [30, 45]] 40 0 european_payoff
        OptionType.put (fun _ _ => (0 : ℝ)) (fun xs _ => xs.map (fun _ => 0))
      = Except.ok ([[true, false], [false, false]],
          [[some 5, some 0], [some 0, some 0]], some (5 / 2)) := by
  have hrule : lsmcRule Real.exp [0, 1, 2] [[40, 40], [35, 41], [30, 45]] 40 0
      european_payoff OptionType.put (fun _ _ => (0 : ℝ))
      (fun xs _ => xs.map (fun _ => 0)) = [[true, false], [false, false]] := by
    rw [lsmcRule, scenarioThreeDatesRows]
    rfl
  have hcf : lsmcCFMat Real.exp [0, 1, 2] [[40, 40], [35, 41], [30, 45]] 40 0
      european_payoff OptionType.put (fun _ _ => (0 : ℝ))
      (fun xs _ => xs.map (fun _ => 0))
      = [[some 5, some 0], [some 0, some 0]] := by
    rw [lsmcCFMat, hrule, scenarioThreeDatesRows]
    norm_num
  have hprice : lsmcPrice Real.exp [0, 1, 2] [[40, 40], [35, 41], [30, 45]] 40 0
      european_payoff OptionType.put (fun _ _ => (0 : ℝ))
      (fun xs _ => xs.map (fun _ => 0)) = some (5 / 2) := by
    rw [lsmcPrice, hcf, scenarioThreeDatesDisc]
    norm_num [pathwiseCF, cumprod, cumprodFrom, naScale, naSum, naAdd, naMean]
  rw [lsmcFullG, if_pos (by rfl), if_neg (by simp), lsmcBody, hrule, hcf, hprice]

/-- C6 counterexample: two runs that return equal values from `lsmc` while
their stopping-rule and cashflow matrices differ, so the value returned by
`lsmc` cannot contain (or determine) those matrices: the function returns
only the scalar price. -/
theorem claim_C6_counterexample :
    lsmc [0, 1] [[40], [30]] 40 0 european_payoff OptionType.put
        (fun _ _ => (0 : ℝ)) (fun xs _ => xs)
      = lsmc [0, 1] [[40, 40], [30, 30]] 40 0 european_payoff OptionType.put
        (fun _ _ => (0 : ℝ)) (fun xs _ => xs) ∧
    lsmcFull [0, 1] [[40], [30]] 40 0 european_payoff OptionType.put
        (fun _ _ => (0 : ℝ)) (fun xs _ => xs)
      ≠ lsmcFull [0, 1] [[40, 40], [30, 30]] 40 0 european_payoff OptionType.put
        (fun _ _ => (0 : ℝ)) (fun xs _ => xs) := by
  constructor
  · rw [lsmc, lsmcG, scenarioOnePath, lsmc, lsmcG, scenarioTwoPaths]
    rfl
  · rw [lsmcFull, scenarioOnePath, lsmcFull, scenarioTwoPaths]
    intro h
    simp at h

/-- C8 counterexample: with two time points and zero paths the run is
accepted and every path is (vacuously) out of the money at every date, yet
the returned price is NaN (the numpy mean of an empty vector), not 0. -/
theorem claim_C8_counterexample :
    lsmc [0, 1] [[], []] 40 0 european_payoff OptionType.put
        (fun _ _ => (0 : ℝ)) (fun xs _ => xs) = Except.ok none ∧
      (Except.ok (none : NA ℝ) : Except LsmcError (NA ℝ))
        ≠ Except.ok (some (0 : ℝ)) := by
  refine ⟨rfl, by simp⟩

theorem claim_C2_witness :
    lsmcFullG Real.exp [0, 1] [[40, 40, 40], [30, 45, 38]] 40 0 european_payoff
        OptionType.put (fun _ _ => (0 : ℝ)) (fun xs _ => xs)
      = Except.ok ([[true, false, true]], [[some 10, some 0, some 2]],
          some (Real.exp (-0) * ((10 + 0 + 2) / 3))) ∧
    ((colD 0 [[true, false, true]] false).count true = 0 ∨
      (colD 0 [[true, false, true]] false).count true = 1) :=
  ⟨scenarioThreePaths 0 (fun _ _ => (0 : ℝ)) (fun xs _ => xs),
    claim_C2 Real.exp [0, 1] [[40, 40, 40], [30, 45, 38]] 40 0 european_payoff
      OptionType.put (fun _ _ => (0 : ℝ)) (fun xs _ => xs)
      [[true, false, true]] [[some 10, some 0, some 2]]
      (some (Real.exp (-0) * ((10 + 0 + 2) / 3))) 3 0
      (scenarioThreePaths 0 (fun _ _ => (0 : ℝ)) (fun xs _ => xs))
      (by simp [european_payoff]) (by simp [european_payoff]) (by decide)⟩

theorem claim_C4_witness :
    lsmcFullG Real.exp [0, 1] [[40, 40, 40], [30, 45, 38]] 40 0 european_payoff
        OptionType.put (fun _ _ => (0 : ℝ)) (fun xs _ => xs)
      = Except.ok ([[true, false, true]], [[some 10, some 0, some 2]],
          some (Real.exp (-0) * ((10 + 0 + 2) / 3))) ∧
    (([[true, false, true]] : List (List Bool)).getD
      (([0, 1] : List ℝ).length - 2) []).getD 0 false = true :=
  ⟨scenarioThreePaths 0 (fun _ _ => (0 : ℝ)) (fun xs _ => xs),
    claim_C4 Real.exp [0, 1] [[40, 40, 40], [30, 45, 38]] 40 0 european_payoff
      OptionType.put (fun _ _ => (0 : ℝ)) (fun xs _ => xs)
      [[true, false, true]] [[some 10, some 0, some 2]]
      (some (Real.exp (-0) * ((10 + 0 + 2) / 3))) 3 0
      (scenarioThreePaths 0 (fun _ _ => (0 : ℝ)) (fun xs _ => xs))
      (by simp [european_payoff]) (by simp [european_payoff]) (by decide)
      (by norm_num [european_payoff]) (by intro i hi; simp at hi)⟩

theorem claim_C5_witness :
    lsmcChecks ([0, 1] : List ℝ) [[1], [2, 3]] = false ∧
    lsmcG Real.exp [0, 1] [[1], [2, 3]] 40 0 european_payoff OptionType.put
        (fun _ _ => (0 : ℝ)) (fun xs _ => xs)
      = Except.error LsmcError.shape ∧
    lsmcG Real.exp [0] [[5]] 40 0 european_payoff OptionType.put
        (fun _ _ => (0 : ℝ)) (fun xs _ => xs)
      = Except.error LsmcError.index :=
  ⟨rfl,
    (claim_C5 Real.exp [0, 1] [[1], [2, 3]] 40 0 european_payoff OptionType.put
      (fun _ _ => (0 : ℝ)) (fun xs _ => xs)).1 rfl,
    (claim_C5 Real.exp [0] [[5]] 40 0 european_payoff OptionType.put
      (fun _ _ => (0 : ℝ)) (fun xs _ => xs)).2 rfl rfl⟩

theorem claim_C6_witness :
    lsmcFullG Real.exp [0, 1] [[40], [30]] 40 0 european_payoff OptionType.put
        (fun _ _ => (0 : ℝ)) (fun xs _ => xs)
      = Except.ok ([[true]], [[some 10]], some 10) ∧
    (lsmcG Real.exp [0, 1] [[40], [30]] 40 0 european_payoff OptionType.put
        (fun _ _ => (0 : ℝ)) (fun xs _ => xs)
      = Except.ok (some 10) ∧
    (some 10 : NA ℝ) = naMean (pathwiseCF [[some 10]]
      (cumprod (lsmcDisc Real.exp 0 [0, 1])))) :=
  ⟨scenarioOnePath (fun _ _ => (0 : ℝ)) (fun xs _ => xs),
    claim_C6 Real.exp [0, 1] [[40], [30]] 40 0 european_payoff OptionType.put
      (fun _ _ => (0 : ℝ)) (fun xs _ => xs) [[true]] [[some 10]] (some 10)
      (scenarioOnePath (fun _ _ => (0 : ℝ)) (fun xs _ => xs))⟩

theorem claim_C7_witness :
    lsmcFullG Real.exp [0, 1, 2] [[40, 40], [35, 41], [30, 45]] 40 0
        european_payoff OptionType.put (fun _ _ => (0 : ℝ))
        (fun xs _ => xs.map (fun _ => 0))
      = Except.ok ([[true, false], [false, false]],
          [[some 5, some 0], [some 0, some 0]], some (5 / 2)) ∧
    (((lsmcRows Real.exp [0, 1, 2] [[40, 40], [35, 41], [30, 45]] 40 0
        european_payoff OptionType.put (fun _ _ => (0 : ℝ))
        (fun xs _ => xs.map (fun _ => 0))).getD 0 ([], [])).1.getD 0 false
      = decide ((([0] : List ℝ).getD ((([true, false] : List Bool).take 0).countP
          (fun b => b)) 0) < (([5, 0] : List ℝ).getD 0 0)) ∧
    ((([5, 0] : List ℝ).getD 0 0) = (([0] : List ℝ).getD
        ((([true, false] : List Bool).take 0).countP (fun b => b)) 0) →
      ((lsmcRows Real.exp [0, 1, 2] [[40, 40], [35, 41], [30, 45]] 40 0
        european_payoff OptionType.put (fun _ _ => (0 : ℝ))
        (fun xs _ => xs.map (fun _ => 0))).getD 0 ([], [])).1.getD 0 false = false)) :=
  ⟨scenarioThreeDates,
    claim_C7 Real.exp [0, 1, 2] [[40, 40], [35, 41], [30, 45]] 40 0
      european_payoff OptionType.put (fun _ _ => (0 : ℝ))
      (fun xs _ => xs.map (fun _ => 0))
      [[true, false], [false, false]] [[some 5, some 0], [some 0, some 0]]
      (some (5 / 2)) 2 0 0 [5, 0] [35, 41] [true, false] [35] [some 10] [0]
      scenarioThreeDates
      (by simp [european_payoff]) (by simp [european_payoff]) (by simp) (by decide)
      (by decide) (by norm_num [european_payoff]) (by simp)
      (by norm_num [itmMask, european_payoff]) (by simp [maskFilter])
      (by rw [scenarioThreeDatesRows, scenarioThreeDatesDisc]
          norm_num [maskFilter, naScale])
      (by simp [maskFilter]) (by norm_num) (by simp [maskFilter])⟩

theorem claim_C8_witness :
    lsmcFullG Real.exp [0, 1] [[50], [60]] 40 0 european_payoff OptionType.put
        (fun _ _ => (0 : ℝ)) (fun xs _ => xs)
      = Except.ok ([[false]], [[some 0]], some 0) ∧
    ((some 0 : NA ℝ) = some 0 ∧
      (∀ i, i < ([0, 1] : List ℝ).length - 1 → ∀ n, n < 1 →
        (([[false]] : List (List Bool)).getD i []).getD n false = false)) :=
  ⟨scenarioOutOfMoney (fun _ _ => (0 : ℝ)) (fun xs _ => xs),
    (claim_C8 Real.exp [0, 1] [[50], [60]] 40 0 european_payoff OptionType.put
      (fun _ _ => (0 : ℝ)) (fun xs _ => xs) [[false]] [[some 0]] (some 0) 1
      (scenarioOutOfMoney (fun _ _ => (0 : ℝ)) (fun xs _ => xs))
      (by simp [european_payoff]) (by simp [european_payoff])).2 (by decide)
      (by intro j hj n hn
          simp only [List.length_cons, List.length_nil] at hj
          interval_cases j <;> interval_cases n <;> norm_num [european_payoff])⟩

theorem claim_C9_witness :
    lsmcFullG Real.exp [0, 1] [[40], [30]] 40 0 european_payoff OptionType.put
        (fun _ _ => (0 : ℝ)) (fun xs _ => xs)
      = lsmcFullG Real.exp [0, 1] [[40], [30]] 40 0 european_payoff
        OptionType.put (fun _ _ => (0 : ℝ)) (fun xs _ => xs) ∧
    lsmcG Real.exp [0, 1] [[40], [30]] 40 0 european_payoff OptionType.put
        (fun _ _ => (0 : ℝ)) (fun xs _ => xs)
      = lsmcG Real.exp [0, 1] [[40], [30]] 40 0 european_payoff OptionType.put
        (fun _ _ => (0 : ℝ)) (fun xs _ => xs) :=
  claim_C9 Real.exp Real.exp [0, 1] [0, 1] [[40], [30]] [[40], [30]]
    40 40 0 0 european_payoff european_payoff OptionType.put OptionType.put
    (fun _ _ => (0 : ℝ)) (fun _ _ => (0 : ℝ)) (fun xs _ => xs) (fun xs _ => xs)
    rfl rfl rfl rfl rfl rfl rfl rfl rfl

theorem claim_C10_witness :
    lsmcFullG Real.exp [0, 1] [[40, 40, 40], [30, 45, 38]] 40 0 european_payoff
        OptionType.put (fun _ _ => (0 : ℝ)) (fun xs _ => xs)
      = Except.ok ([[true, false, true]], [[some 10, some 0, some 2]],
          some (Real.exp (-0) * ((10 + 0 + 2) / 3))) ∧
    (([[some 10, some 0, some 2]] : List (List (NA ℝ))).getD 0 []).getD 0 none
      = some (if (([[true, false, true]] : List (List Bool)).getD 0 []).getD 0 false
        then ((european_payoff [[40, 40, 40], [30, 45, 38]] 40 OptionType.put).getD
          (0 + 1) []).getD 0 0 else 0) :=
  ⟨scenarioThreePaths 0 (fun _ _ => (0 : ℝ)) (fun xs _ => xs),
    claim_C10 Real.exp [0, 1] [[40, 40, 40], [30, 45, 38]] 40 0 european_payoff
      OptionType.put (fun _ _ => (0 : ℝ)) (fun xs _ => xs)
      [[true, false, true]] [[some 10, some 0, some 2]]
      (some (Real.exp (-0) * ((10 + 0 + 2) / 3))) 3 0 0
      (scenarioThreePaths 0 (fun _ _ => (0 : ℝ)) (fun xs _ => xs))
      (by simp [european_payoff]) (by simp [european_payoff]) (by decide) (by decide)⟩
